import Mathlib

/-!
Verification development for the DSLX front-end / bytecode pipeline of the
XLS repository.  Each section embeds one region of the source (or, where the
implementation is not part of the visible sources, a model derived from the
specification, marked as such) and proves the claimed properties about it.

Machine integers are embedded as `Nat` with explicit `% 2^w` wraparound at the
points where the source's fixed-width semantics demand it.
-/

/-! ## Fixed-width bit-vector arithmetic helpers

These mirror the DSLX semantics of `uN`/`sN` values: unsigned magnitudes are
naturals strictly below `2^w`, operations wrap around, signed views are the
two's-complement reinterpretation. -/

/-- Truncate a natural to `w` bits. -/
def maskW (w n : Nat) : Nat := n % 2 ^ w

/-- Truncate to 32 bits (the RISC-V example's word size). -/
def mask32 (n : Nat) : Nat := maskW 32 n

/-- Two's-complement (signed) reinterpretation of a `w`-bit value. -/
def toSigned (w n : Nat) : Int :=
  let m := maskW w n
  if m < 2 ^ (w - 1) then (m : Int) else (m : Int) - 2 ^ w

/-- Bit-slice `x[lo +: uN]`: take `n` bits of `x` starting at bit `lo`. -/
def sliceBits (x lo n : Nat) : Nat := maskW n (x >>> lo)

/-- DSLX `hi ++ lo` bit concatenation, where `lo` has width `loW`. -/
def concatBits (hi loW lo : Nat) : Nat := hi * 2 ^ loW + lo

/-- Sign-extend a `w`-bit value to 32 bits (DSLX `signex(x, u32:0)`). -/
def signex32 (w x : Nat) : Nat :=
  let m := maskW w x
  if m < 2 ^ (w - 1) then m else m + (2 ^ 32 - 2 ^ w)

/-- Wraparound 32-bit addition. -/
def add32 (a b : Nat) : Nat := mask32 (a + b)

/-- Wraparound 32-bit subtraction. -/
def sub32 (a b : Nat) : Nat := mask32 (a + 2 ^ 32 - mask32 b)

/-- DSLX `u32` left shift: amounts of 32 or more produce zero. -/
def shl32 (a b : Nat) : Nat := if 32 ≤ b then 0 else mask32 (a <<< b)

/-- DSLX `u32` logical right shift. -/
def shr32 (a b : Nat) : Nat := mask32 a >>> b

/-- DSLX arithmetic right shift of a 32-bit value viewed as `s32`. -/
def sra32 (a b : Nat) : Nat :=
  let b' := min b 32
  let m := mask32 a
  mask32 ((m >>> b') + if 2 ^ 31 ≤ m then 2 ^ 32 - 2 ^ (32 - b') else 0)

/-! ## Section: the RISC-V example interpreter (claim C10)

Shallow embedding of the DSLX program in `src/unnamed/part_000` (the
`riscv_simple` example): instruction decode plus the `run_*_instruction`
dispatch functions and `run_instruction` itself.

`fail!` is embedded as returning its payload value (the semantics the payload
argument exists for); the r0 invariant below is insensitive to this choice
because the final `update(regs, u32:0, u32:0)` of `run_instruction` is applied
on every path of the source. -/

namespace RiscV

/-- Register file: DSLX `u32[REG_COUNT]`, embedded as a list of naturals. -/
abbrev Regs := List Nat

/-- Data memory: DSLX `u8[DMEM_SIZE]`. -/
abbrev Dmem := List Nat

def REG_COUNT : Nat := 32

def DMEM_SIZE : Nat := 16

/-- DSLX `update(arr, i, v)` builtin. -/
def update (l : List Nat) (i v : Nat) : List Nat := l.set i v

/-- DSLX `arr[i]` array read (in-bounds in the source; 0 default here). -/
def rd (l : List Nat) (i : Nat) : Nat := l.getD i 0

def I_LD : Nat := 0b0000011
def I_ARITH : Nat := 0b0010011
def I_JALR : Nat := 0b1100111
def R_CLASS : Nat := 0b0110011
def S_CLASS : Nat := 0b0100011
def B_CLASS : Nat := 0b1100011
def U_CLASS : Nat := 0b0110111
def UJ_CLASS : Nat := 0b1101111

def ADD : Nat := 0b000
def SUB : Nat := 0b000
def SUB_FUNCT7 : Nat := 0b0100000
def SLL : Nat := 0b001
def XOR : Nat := 0b100
def SRL : Nat := 0b101
def SRA : Nat := 0b101
def SRA_FUNCT7 : Nat := 0b0100000
def OR : Nat := 0b110
def AND : Nat := 0b111
def LRD : Nat := 0b011
def SCD : Nat := 0b011
def LRD_FUNCT7 : Nat := 0b000100
def SCD_FUNCT7 : Nat := 0b001100

def LB : Nat := 0b000
def LH : Nat := 0b001
def LW : Nat := 0b010
def LD : Nat := 0b011
def LBU : Nat := 0b100
def LHU : Nat := 0b101
def LWU : Nat := 0b110
def ADDI : Nat := 0b000
def SLLI : Nat := 0b001
def XORI : Nat := 0b100
def SRLI : Nat := 0b101
def SRAI : Nat := 0b101
def ORI : Nat := 0b110
def ANDI : Nat := 0b111
def JALR : Nat := 0b000

def SB : Nat := 0b000
def SH : Nat := 0b001
def SW : Nat := 0b010
def SD : Nat := 0b111

def BEQ : Nat := 0b000
def BNE : Nat := 0b001
def BLT : Nat := 0b100
def BGE : Nat := 0b101
def BLTU : Nat := 0b110
def BGEU : Nat := 0b111

/-- DSLX `decode_opcode`. -/
def decode_opcode (ins : Nat) : Nat := sliceBits ins 0 7

/-- DSLX `decode_r_instruction`: `(funct7, rs2, rs1, funct3, rd, opcode)`. -/
def decode_r_instruction (ins : Nat) : Nat × Nat × Nat × Nat × Nat × Nat :=
  (sliceBits ins 25 7, sliceBits ins 20 5, sliceBits ins 15 5,
   sliceBits ins 12 3, sliceBits ins 7 5, sliceBits ins 0 7)

/-- DSLX `decode_i_instruction`: `(imm_11_0, rs1, funct3, rd, opcode)`. -/
def decode_i_instruction (ins : Nat) : Nat × Nat × Nat × Nat × Nat :=
  (sliceBits ins 20 12, sliceBits ins 15 5, sliceBits ins 12 3,
   sliceBits ins 7 5, sliceBits ins 0 7)

/-- DSLX `decode_s_instruction`: `(imm_11_5 ++ imm_4_0, rs2, rs1, funct3, opcode)`. -/
def decode_s_instruction (ins : Nat) : Nat × Nat × Nat × Nat × Nat :=
  (concatBits (sliceBits ins 25 7) 5 (sliceBits ins 7 5),
   sliceBits ins 20 5, sliceBits ins 15 5, sliceBits ins 12 3, sliceBits ins 0 7)

/-- DSLX `decode_u_instruction`: `(imm_31_12, rd, opcode)`. -/
def decode_u_instruction (ins : Nat) : Nat × Nat × Nat :=
  (sliceBits ins 12 20, sliceBits ins 7 5, sliceBits ins 0 7)

/-- DSLX `decode_b_instruction`:
`(imm_12 ++ imm_11 ++ imm_10_5 ++ imm_4_1, rs2, rs1, funct3, opcode)`. -/
def decode_b_instruction (ins : Nat) : Nat × Nat × Nat × Nat × Nat :=
  (concatBits (concatBits (concatBits (sliceBits ins 31 1) 1 (sliceBits ins 7 1))
      6 (sliceBits ins 25 6)) 4 (sliceBits ins 8 4),
   sliceBits ins 20 5, sliceBits ins 15 5, sliceBits ins 12 3, sliceBits ins 0 7)

/-- DSLX `decode_j_instruction`:
`(imm_20 ++ imm_19_12 ++ imm_11 ++ imm_10_1, rd, opcode)`. -/
def decode_j_instruction (ins : Nat) : Nat × Nat × Nat :=
  (concatBits (concatBits (concatBits (sliceBits ins 31 1) 8 (sliceBits ins 12 8))
      1 (sliceBits ins 20 1)) 10 (sliceBits ins 21 10),
   sliceBits ins 7 5, sliceBits ins 0 7)

/-- DSLX `run_r_instruction`.  The `match funct3` of the source is embedded
as the same sequential constant tests; `fail!` arms yield their payload
`u32:0`.  In the nested `match funct7` arms the source names `ADD_FUNCT7` and
`SRL_FUNCT7` are not defined constants, so the parser treats them as fresh
binding patterns: the first arm of each nested match catches every `funct7`,
and the `SUB` / `SRA` alternatives of the source are unreachable. -/
def run_r_instruction (pc ins : Nat) (regs : Regs) (dmem : Dmem) :
    Nat × Regs × Dmem :=
  let d := decode_r_instruction ins
  let rs2 := d.2.1
  let rs1 := d.2.2.1
  let funct3 := d.2.2.2.1
  let rdest := d.2.2.2.2.1
  let new_value :=
    if funct3 = XOR then rd regs rs1 ^^^ rd regs rs2
    else if funct3 = AND then rd regs rs1 &&& rd regs rs2
    else if funct3 = OR then rd regs rs1 ||| rd regs rs2
    else if funct3 = SLL then shl32 (rd regs rs1) (rd regs rs2)
    else if funct3 = ADD then add32 (rd regs rs1) (rd regs rs2)
    else if funct3 = SRL then shr32 (rd regs rs1) (rd regs rs2)
    else 0
  (add32 pc 4, update regs rdest new_value, dmem)

/-- DSLX `run_i_instruction`.  Note the source's `SRLA` arm: `SRLA` is not a
defined constant, so the parser treats it as a fresh binding pattern — that
arm matches every `funct3` not caught by the arms before it, and the `ORI` /
`ANDI` arms of the source are unreachable.  The embedding reproduces that. -/
def run_i_instruction (pc ins : Nat) (regs : Regs) (dmem : Dmem) :
    Nat × Regs × Dmem :=
  let d := decode_i_instruction ins
  let imm12 := d.1
  let rs1 := d.2.1
  let funct3 := d.2.2.1
  let rdest := d.2.2.2.1
  let opcode := d.2.2.2.2
  let pv :=
    if opcode = I_ARITH then
      (add32 pc 4,
       if funct3 = ADDI then add32 (rd regs rs1) imm12
       else if funct3 = SLLI then shl32 (rd regs rs1) imm12
       else if funct3 = XORI then rd regs rs1 ^^^ imm12
       else if funct3 = SRLI then shr32 (rd regs rs1) imm12
       else sra32 (rd regs rs1) imm12)
    else if opcode = I_LD then
      let addr := add32 (rd regs rs1) imm12
      (add32 pc 4,
       if funct3 = LB then signex32 8 (rd dmem addr)
       else if funct3 = LH then
         signex32 16 (concatBits (rd dmem addr) 8 (rd dmem (add32 addr 1)))
       else if funct3 = LW then
         concatBits (concatBits (concatBits (rd dmem (add32 addr 0)) 8
             (rd dmem (add32 addr 1))) 8 (rd dmem (add32 addr 2))) 8
           (rd dmem (add32 addr 3))
       else if funct3 = LBU then rd dmem (rd regs addr)
       else if funct3 = LHU then
         concatBits (rd dmem addr) 8 (rd dmem (add32 addr 1))
       else 0)
    else if opcode = I_JALR then
      (if funct3 = JALR then
        (add32 (rd regs rs1) (signex32 12 imm12) &&& 0xfffffffe, add32 pc 4)
       else (pc, 0))
    else (pc, 0)
  (pv.1, update regs rdest pv.2, dmem)

/-- DSLX `run_s_instruction`; `fail!` arm yields its payload `dmem`. -/
def run_s_instruction (pc ins : Nat) (regs : Regs) (dmem : Dmem) :
    Nat × Regs × Dmem :=
  let d := decode_s_instruction ins
  let imm12 := d.1
  let rs2 := d.2.1
  let rs1 := d.2.2.1
  let funct3 := d.2.2.2.1
  let dmem' :=
    if funct3 = SW then
      let m0 := update dmem (add32 (add32 (rd regs rs2) 0) imm12)
        (sliceBits (rd regs rs1) 24 8)
      let m1 := update m0 (add32 (add32 (rd regs rs2) 1) imm12)
        (sliceBits (rd regs rs1) 16 8)
      let m2 := update m1 (add32 (add32 (rd regs rs2) 2) imm12)
        (sliceBits (rd regs rs1) 8 8)
      update m2 (add32 (add32 (rd regs rs2) 3) imm12)
        (sliceBits (rd regs rs1) 0 8)
    else if funct3 = SH then
      let m0 := update dmem (add32 (add32 (rd regs rs2) 0) imm12)
        (sliceBits (rd regs rs1) 8 8)
      update m0 (add32 (add32 (rd regs rs2) 1) imm12)
        (sliceBits (rd regs rs1) 0 8)
    else if funct3 = SB then
      update dmem (add32 (add32 (rd regs rs2) 0) imm12)
        (sliceBits (rd regs rs1) 0 8)
    else dmem
  (add32 pc 4, regs, dmem')

/-- DSLX `run_u_instruction` (LUI). -/
def run_u_instruction (pc ins : Nat) (regs : Regs) (dmem : Dmem) :
    Nat × Regs × Dmem :=
  let d := decode_u_instruction ins
  let imm20 := d.1
  let rdest := d.2.1
  (add32 pc 4, update regs rdest (shl32 imm20 12), dmem)

/-- DSLX `run_uj_instruction` (JAL). -/
def run_uj_instruction (pc ins : Nat) (regs : Regs) (dmem : Dmem) :
    Nat × Regs × Dmem :=
  let d := decode_j_instruction ins
  let imm20 := d.1
  let rdest := d.2.1
  (add32 pc (signex32 21 (concatBits imm20 1 0)),
   update regs rdest (add32 pc 4), dmem)

/-- DSLX `run_b_instruction`. -/
def run_b_instruction (pc ins : Nat) (regs : Regs) (dmem : Dmem) :
    Nat × Regs × Dmem :=
  let d := decode_b_instruction ins
  let imm12 := d.1
  let rs2 := d.2.1
  let rs1 := d.2.2.1
  let funct3 := d.2.2.2.1
  let pc4 := add32 pc 4
  let pc_imm := add32 pc (signex32 13 (concatBits imm12 1 0))
  let new_pc :=
    if funct3 = BEQ then
      (if toSigned 32 (rd regs rs1) = toSigned 32 (rd regs rs2) then pc_imm else pc4)
    else if funct3 = BNE then
      (if toSigned 32 (rd regs rs1) ≠ toSigned 32 (rd regs rs2) then pc_imm else pc4)
    else if funct3 = BLT then
      (if toSigned 32 (rd regs rs1) < toSigned 32 (rd regs rs2) then pc_imm else pc4)
    else if funct3 = BGE then
      (if toSigned 32 (rd regs rs2) ≤ toSigned 32 (rd regs rs1) then pc_imm else pc4)
    else if funct3 = BLTU then
      (if rd regs rs1 < rd regs rs2 then pc_imm else pc4)
    else if funct3 = BGEU then
      (if rd regs rs2 ≤ rd regs rs1 then pc_imm else pc4)
    else pc4
  (new_pc, regs, dmem)

/-- DSLX `run_instruction`: dispatch on the instruction class, then force
`r0 = 0` via the source's trailing `update(regs, u32:0, u32:0)`. -/
def run_instruction (pc ins : Nat) (regs : Regs) (dmem : Dmem) :
    Nat × Regs × Dmem :=
  let opcode := decode_opcode ins
  let s :=
    if opcode = R_CLASS then run_r_instruction pc ins regs dmem
    else if opcode = S_CLASS then run_s_instruction pc ins regs dmem
    else if opcode = I_ARITH ∨ opcode = I_JALR ∨ opcode = I_LD then
      run_i_instruction pc ins regs dmem
    else if opcode = B_CLASS then run_b_instruction pc ins regs dmem
    else if opcode = U_CLASS then run_u_instruction pc ins regs dmem
    else if opcode = UJ_CLASS then run_uj_instruction pc ins regs dmem
    else (pc, regs, dmem)
  (s.1, update s.2.1 0 0, s.2.2)

/-- DSLX `make_r_insn` (sequential constant-pattern match on `op`; note
`SUB = ADD = 0` and `SRA = SRL` and `SCD = LRD`, so the first of each pair of
arms wins). -/
def make_r_insn (op rdest r1 r2 : Nat) : Nat :=
  let funct7 :=
    if op = SUB then SUB_FUNCT7
    else if op = SRA then SRA_FUNCT7
    else if op = LRD then LRD_FUNCT7
    else if op = SCD then SCD_FUNCT7
    else 0
  concatBits (concatBits (concatBits (concatBits (concatBits funct7 5 r2) 5 r1)
    3 op) 5 rdest) 7 R_CLASS

/-- DSLX `make_i_insn` (for I_ARITH / I_LD opcodes). -/
def make_i_insn (op rdest r1 imm12 : Nat) : Nat :=
  let itype := if op = ADDI ∨ op = SLLI ∨ op = XORI ∨ op = SRLI ∨ op = SRAI ∨
      op = ORI ∨ op = ANDI
    then I_ARITH else I_LD
  concatBits (concatBits (concatBits (concatBits imm12 5 r1) 3 op) 5 rdest) 7 itype

/-- DSLX `make_b_insn`. -/
def make_b_insn (op rs1 rs2 imm12 : Nat) : Nat :=
  concatBits (concatBits (concatBits (concatBits (concatBits (concatBits
    (concatBits (sliceBits imm12 11 1) 6 (sliceBits imm12 4 6)) 5 rs2) 5 rs1)
    3 op) 4 (sliceBits imm12 0 4)) 1 (sliceBits imm12 10 1)) 7 B_CLASS

theorem length_update (l : List Nat) (i v : Nat) :
    (update l i v).length = l.length := List.length_set l i v

theorem run_r_regs_length (pc ins : Nat) (regs : Regs) (dmem : Dmem) :
    ((run_r_instruction pc ins regs dmem).2.1).length = regs.length := by
  simp [run_r_instruction, update]

theorem run_i_regs_length (pc ins : Nat) (regs : Regs) (dmem : Dmem) :
    ((run_i_instruction pc ins regs dmem).2.1).length = regs.length := by
  simp [run_i_instruction, update]

theorem run_s_regs_length (pc ins : Nat) (regs : Regs) (dmem : Dmem) :
    ((run_s_instruction pc ins regs dmem).2.1).length = regs.length := by
  simp [run_s_instruction]

theorem run_u_regs_length (pc ins : Nat) (regs : Regs) (dmem : Dmem) :
    ((run_u_instruction pc ins regs dmem).2.1).length = regs.length := by
  simp [run_u_instruction, update]

theorem run_uj_regs_length (pc ins : Nat) (regs : Regs) (dmem : Dmem) :
    ((run_uj_instruction pc ins regs dmem).2.1).length = regs.length := by
  simp [run_uj_instruction, update]

theorem run_b_regs_length (pc ins : Nat) (regs : Regs) (dmem : Dmem) :
    ((run_b_instruction pc ins regs dmem).2.1).length = regs.length := by
  simp [run_b_instruction]

theorem set_zero_getD_zero (l : List Nat) : (l.set 0 0).getD 0 0 = 0 := by
  cases l <;> rfl

/-- Sanity check against the source's `risc_v_example_test`: the first step
`run_instruction(0, make_r_insn(XOR, r3, r1, r2), regs, dmem)` with
`regs = [0, 1, 2, 0, ...]` advances the PC to 4 and stores `1 ^ 2 = 3` in r3. -/
theorem example_xor_step :
    (run_instruction 0 (make_r_insn XOR 3 1 2)
        ([0, 1, 2] ++ List.replicate 29 0) (List.replicate 16 0)).1 = 4 ∧
    ((run_instruction 0 (make_r_insn XOR 3 1 2)
        ([0, 1, 2] ++ List.replicate 29 0) (List.replicate 16 0)).2.1).getD 3 0 = 3 := by
  decide

end RiscV

/-- C10: for every program counter, instruction word, register file of the
declared size, and data memory, the register file returned by
`run_instruction` again has the declared size and its register 0 equals 0:
whatever the dispatched instruction class wrote, the final
`update(regs, u32:0, u32:0)` of `run_instruction` overwrites slot 0 with
zero, so the r0-is-always-zero invariant is preserved by every step. -/
theorem riscv_run_instruction_reg0_always_zero (pc ins : Nat)
    (regs : RiscV.Regs) (dmem : RiscV.Dmem)
    (h : regs.length = RiscV.REG_COUNT) :
    ((RiscV.run_instruction pc ins regs dmem).2.1).length = RiscV.REG_COUNT ∧
    ((RiscV.run_instruction pc ins regs dmem).2.1).getD 0 0 = 0 := by
  refine ⟨?_, ?_⟩
  · simp only [RiscV.run_instruction, RiscV.update, List.length_set]
    split_ifs <;>
      simp [RiscV.run_r_regs_length, RiscV.run_i_regs_length,
        RiscV.run_s_regs_length, RiscV.run_u_regs_length,
        RiscV.run_uj_regs_length, RiscV.run_b_regs_length, h]
  · simp only [RiscV.run_instruction, RiscV.update]
    exact RiscV.set_zero_getD_zero _

/-- Witness for C10 at a concrete input: the register file from the source's
example test, executing the `XOR r3, r1, r2` instruction. -/
theorem riscv_run_instruction_reg0_always_zero_witness :
    ([0, 1, 2] ++ List.replicate 29 0 : List Nat).length = RiscV.REG_COUNT ∧
    (((RiscV.run_instruction 0 (RiscV.make_r_insn RiscV.XOR 3 1 2)
        ([0, 1, 2] ++ List.replicate 29 0) (List.replicate 16 0)).2.1).length =
          RiscV.REG_COUNT ∧
      ((RiscV.run_instruction 0 (RiscV.make_r_insn RiscV.XOR 3 1 2)
        ([0, 1, 2] ++ List.replicate 29 0) (List.replicate 16 0)).2.1).getD 0 0 = 0) :=
  ⟨by decide,
   riscv_run_instruction_reg0_always_zero 0 (RiscV.make_r_insn RiscV.XOR 3 1 2)
     ([0, 1, 2] ++ List.replicate 29 0) (List.replicate 16 0) (by decide)⟩

/-! ## Section: constexpr evaluator, bytecode emitter and VM (claims C1, C5, C6, C9)

The implementations of `ConstexprEvaluator`, the bytecode emitter and the
bytecode interpreter are not among the visible sources (only
`constexpr_evaluator.h` and `bytecode_emitter_test.cc` are), so this section
is modelled from the spec, pinned by the declarations in
`src/xls/dslx/constexpr_evaluator.h` and by the exact instruction sequences
asserted in `src/xls/dslx/bytecode/bytecode_emitter_test.cc`
(`Ternary`, `MatchSimpleArms`). -/

namespace Dslx

/-- DSLX `InterpValue`, bits variant: signedness, width, two's-complement
magnitude (a natural strictly below `2^width` once produced by an op). -/
structure InterpValue where
  signed : Bool
  width : Nat
  val : Nat
deriving DecidableEq, Repr

/-- Build a `w`-bit value, wrapping the magnitude. -/
def mkBits (s : Bool) (w v : Nat) : InterpValue := ⟨s, w, maskW w v⟩

/-- Boolean as DSLX `u1`. -/
def boolValue (b : Bool) : InterpValue := ⟨false, 1, if b then 1 else 0⟩

/-- Signed (two's-complement) view of a value. -/
def InterpValue.toInt (v : InterpValue) : Int := toSigned v.width v.val

/-- Arithmetic right shift of a `w`-bit value by `b` (sign-filling). -/
def sraW (w a b : Nat) : Nat :=
  let b' := min b w
  let m := maskW w a
  if m < 2 ^ (w - 1) then m >>> b'
  else maskW w ((m >>> b') + (2 ^ w - 2 ^ (w - b')))

/-- Binary operators of the expression layer. -/
inductive BinopKind where
  | add | sub | mul | div
  | bitAnd | bitOr | bitXor
  | shl | shr
  | cmpEq | cmpNe | cmpLt | cmpLe | cmpGt | cmpGe
deriving DecidableEq, Repr

/-- Unary operators: bitwise invert and arithmetic negate. -/
inductive UnopKind where
  | invert | negate
deriving DecidableEq, Repr

/-- Shared fixed-width arithmetic of the constexpr evaluator and the VM (the
spec requires both to agree bit for bit; in the source both sides go through
the same `InterpValue` operations).  Mismatched operand types and division by
zero are genuine evaluation errors. -/
def binopEval (op : BinopKind) (a b : InterpValue) : Except String InterpValue :=
  let w := a.width
  match op with
  | .shl =>
    .ok (mkBits a.signed w (if w ≤ b.val then 0 else a.val <<< b.val))
  | .shr =>
    .ok (if a.signed then ⟨a.signed, w, sraW w a.val b.val⟩
         else mkBits a.signed w (maskW w a.val >>> b.val))
  | _ =>
    if a.signed = b.signed ∧ a.width = b.width then
      match op with
      | .add => .ok (mkBits a.signed w (a.val + b.val))
      | .sub => .ok (mkBits a.signed w (a.val + (2 ^ w - maskW w b.val)))
      | .mul => .ok (mkBits a.signed w (a.val * b.val))
      | .div =>
        if maskW w b.val = 0 then .error "division by zero"
        else if a.signed then
          .ok (mkBits a.signed w (Int.toNat ((a.toInt / b.toInt) % (2 ^ w : Int))))
        else .ok (mkBits a.signed w (maskW w a.val / maskW w b.val))
      | .bitAnd => .ok (mkBits a.signed w (a.val &&& b.val))
      | .bitOr => .ok (mkBits a.signed w (a.val ||| b.val))
      | .bitXor => .ok (mkBits a.signed w (a.val ^^^ b.val))
      | .cmpEq => .ok (boolValue (maskW w a.val = maskW w b.val))
      | .cmpNe => .ok (boolValue (maskW w a.val ≠ maskW w b.val))
      | .cmpLt => .ok (boolValue (if a.signed then a.toInt < b.toInt
                                  else maskW w a.val < maskW w b.val))
      | .cmpLe => .ok (boolValue (if a.signed then a.toInt ≤ b.toInt
                                  else maskW w a.val ≤ maskW w b.val))
      | .cmpGt => .ok (boolValue (if a.signed then b.toInt < a.toInt
                                  else maskW w b.val < maskW w a.val))
      | .cmpGe => .ok (boolValue (if a.signed then b.toInt ≤ a.toInt
                                  else maskW w b.val ≤ maskW w a.val))
      | _ => .error "unreachable"
    else .error "binop operand type mismatch"

/-- Unary operator semantics (bitwise not; two's-complement negate). -/
def unopEval (op : UnopKind) (a : InterpValue) : Except String InterpValue :=
  match op with
  | .invert => .ok (mkBits a.signed a.width (maskW a.width a.val ^^^ (2 ^ a.width - 1)))
  | .negate => .ok (mkBits a.signed a.width (2 ^ a.width - maskW a.width a.val))

/-- Expressions of the constexpr layer: literals, name references resolved
through the constexpr environment, binary/unary operators, and the ternary
conditional. -/
inductive Expr where
  | number (v : InterpValue)
  | nameRef (s : String)
  | binop (op : BinopKind) (lhs rhs : Expr)
  | unop (op : UnopKind) (arg : Expr)
  | conditional (test thenE elseE : Expr)
deriving DecidableEq, Repr

/-- Constexpr environment: name to value snapshot (`MakeConstexprEnv`). -/
abbrev Env := List (String × InterpValue)

/-- Environment lookup. -/
def lookupEnv (env : Env) (s : String) : Option InterpValue :=
  (env.find? (fun p => p.1 = s)).map (·.2)

/-- Modelled from the spec: the tree-walking interpretation the constexpr
evaluator applies once every constituent is known constexpr ("the node is
interpreted directly (not re-lowered to bytecode) using the same arithmetic
semantics as the VM").  Errors are genuine evaluation errors (unbound name,
division by zero). -/
def interp (env : Env) : Expr → Except String InterpValue
  | .number v => .ok v
  | .nameRef s =>
    match lookupEnv env s with
    | some v => .ok v
    | none => .error "unbound name"
  | .binop op l r => do binopEval op (← interp env l) (← interp env r)
  | .unop op a => do unopEval op (← interp env a)
  | .conditional t th el => do
    let tv ← interp env t
    if tv.val ≠ 0 then interp env th else interp env el

/-- Modelled from the spec: a node is constexpr iff all of its constituents
are — for this expression layer, iff every name reference resolves in the
constexpr environment. -/
def isConstexpr (env : Env) : Expr → Bool
  | .number _ => true
  | .nameRef s => (lookupEnv env s).isSome
  | .binop _ l r => isConstexpr env l && isConstexpr env r
  | .unop _ a => isConstexpr env a
  | .conditional t th el =>
    isConstexpr env t && isConstexpr env th && isConstexpr env el

/-- Modelled from the spec and `constexpr_evaluator.h`:
`ConstexprEvaluator::Evaluate` "evaluates the given expression to determine
if it's constexpr or not, and updates `type_info` accordingly.  Returns
success as long as no error occurred during evaluation, even if `expr` is
non-constexpr."  The returned `Option` is the constexpr value recorded into
TypeInfo (`none` = nothing recorded, the expression is not constexpr). -/
def Evaluate (env : Env) (e : Expr) : Except String (Option InterpValue) :=
  if isConstexpr env e then
    match interp env e with
    | .ok v => .ok (some v)
    | .error m => .error m
  else .ok none

/-- Error type of `EvaluateToValue`: non-constexpr is distinguished from a
genuine evaluation error. -/
inductive CErr where
  | notConstexpr
  | evalError (msg : String)
deriving DecidableEq, Repr

/-- Modelled from the spec and `constexpr_evaluator.h`:
`ConstexprEvaluator::EvaluateToValue` "performs the same action as
`Evaluate`, but returns the resulting constexpr value.  Returns an error
status if `expr` is non-constexpr." -/
def EvaluateToValue (env : Env) (e : Expr) : Except CErr InterpValue :=
  match Evaluate env e with
  | .error m => .error (.evalError m)
  | .ok none => .error .notConstexpr
  | .ok (some v) => .ok v

/-- Match-arm patterns: a literal value or the wildcard `_`. -/
inductive MatchPattern where
  | value (v : InterpValue)
  | wildcard
deriving DecidableEq, Repr

/-- Does a pattern match a scrutinee value? -/
def patternMatches (p : MatchPattern) (v : InterpValue) : Bool :=
  match p with
  | .value w => v = w
  | .wildcard => true

/-- Bytecode instructions, named after the emitter's disassembly
(`literal`, `dup`, `pop`, `match_arm`, `invert` via `unop`, `jump_rel_if`,
`jump_rel`, `jump_dest`, `fail`). -/
inductive Instr where
  | literal (v : InterpValue)
  | binop (op : BinopKind)
  | unop (op : UnopKind)
  | dup
  | pop
  | matchArm (p : MatchPattern)
  | jumpRelIf (off : Nat)
  | jumpRel (off : Nat)
  | jumpDest
  | fail
deriving DecidableEq, Repr

/-- Modelled from the spec: the bytecode emitter's expression lowering.
Literals push, operators are dedicated opcodes over post-order operand
emission, and the conditional is lowered exactly as the `Ternary` test pins
it down: `test; jump_rel_if (else+2); else; jump_rel (then+2); jump_dest;
then; jump_dest`.  Name references are emitted as literals of their
constexpr-environment value (an unbound name is an emission error). -/
def emit (env : Env) : Expr → Except String (List Instr)
  | .number v => .ok [.literal v]
  | .nameRef s =>
    match lookupEnv env s with
    | some v => .ok [.literal v]
    | none => .error "unbound name"
  | .binop op l r => do
    pure ((← emit env l) ++ (← emit env r) ++ [.binop op])
  | .unop op a => do
    pure ((← emit env a) ++ [.unop op])
  | .conditional t th el => do
    let tc ← emit env t
    let thc ← emit env th
    let elc ← emit env el
    pure (tc ++ [.jumpRelIf (elc.length + 2)] ++ elc ++
      [.jumpRel (thc.length + 2), .jumpDest] ++ thc ++ [.jumpDest])

/-- VM outcome: fall off the end of the code with a final stack, execute a
`fail` (carrying the top of stack as payload), exhaust fuel, or hit a
machine-level error (stack underflow / genuine arithmetic error). -/
inductive Outcome where
  | completed (stack : List InterpValue)
  | failed (payload : InterpValue)
  | outOfFuel
  | vmError
deriving DecidableEq, Repr

/-- Modelled from the spec: the bytecode interpreter.  Single-step dispatch on
the opcode at the instruction pointer; `jump_rel`/`jump_rel_if` are relative
to the jump's own index; `jump_dest` is a no-op landing pad; `fail`
transitions to `failed` carrying the top of stack. -/
def run : Nat → List Instr → Nat → List InterpValue → Outcome
  | 0, _, _, _ => .outOfFuel
  | fuel + 1, prog, ip, stack =>
    match prog[ip]? with
    | none => if ip = prog.length then .completed stack else .vmError
    | some i =>
      match i, stack with
      | .literal v, st => run fuel prog (ip + 1) (v :: st)
      | .binop op, b :: a :: st =>
        (match binopEval op a b with
         | .ok r => run fuel prog (ip + 1) (r :: st)
         | .error _ => .vmError)
      | .binop _, _ => .vmError
      | .unop op, a :: st =>
        (match unopEval op a with
         | .ok r => run fuel prog (ip + 1) (r :: st)
         | .error _ => .vmError)
      | .unop _, [] => .vmError
      | .dup, v :: st => run fuel prog (ip + 1) (v :: v :: st)
      | .dup, [] => .vmError
      | .pop, _ :: st => run fuel prog (ip + 1) st
      | .pop, [] => .vmError
      | .matchArm p, v :: st => run fuel prog (ip + 1) (boolValue (patternMatches p v) :: st)
      | .matchArm _, [] => .vmError
      | .jumpRelIf off, v :: st =>
        if v.val ≠ 0 then run fuel prog (ip + off) st else run fuel prog (ip + 1) st
      | .jumpRelIf _, [] => .vmError
      | .jumpRel off, st => run fuel prog (ip + off) st
      | .jumpDest, st => run fuel prog (ip + 1) st
      | .fail, st => .failed (st.headD (boolValue false))

end Dslx

namespace Dslx

theorem fetch_middle (pre code post : List Instr) (i : Nat) (hi : i < code.length) :
    (pre ++ code ++ post)[pre.length + i]? = code[i]? := by
  rw [List.append_assoc,
    List.getElem?_append_right (by omega : pre.length ≤ pre.length + i)]
  simp only [Nat.add_sub_cancel_left]
  rw [List.getElem?_append_left hi]

theorem run_completed (f : Nat) (prog : List Instr) (st : List InterpValue) :
    run (f + 1) prog prog.length st = .completed st := by
  have h : prog[prog.length]? = none := by
    simp [List.getElem?_eq_none_iff]
  simp [run, h]

theorem step_literal {prog : List Instr} {ip : Nat} {v : InterpValue}
    (h : prog[ip]? = some (.literal v)) (f : Nat) (st : List InterpValue) :
    run (f + 1) prog ip st = run f prog (ip + 1) (v :: st) := by
  simp [run, h]

theorem step_binop {prog : List Instr} {ip : Nat} {op : BinopKind}
    {a b r : InterpValue} (h : prog[ip]? = some (.binop op))
    (hb : binopEval op a b = .ok r) (f : Nat) (st : List InterpValue) :
    run (f + 1) prog ip (b :: a :: st) = run f prog (ip + 1) (r :: st) := by
  simp [run, h, hb]

theorem step_unop {prog : List Instr} {ip : Nat} {op : UnopKind}
    {a r : InterpValue} (h : prog[ip]? = some (.unop op))
    (hu : unopEval op a = .ok r) (f : Nat) (st : List InterpValue) :
    run (f + 1) prog ip (a :: st) = run f prog (ip + 1) (r :: st) := by
  simp [run, h, hu]

theorem step_dup {prog : List Instr} {ip : Nat}
    (h : prog[ip]? = some .dup) (f : Nat) (v : InterpValue) (st : List InterpValue) :
    run (f + 1) prog ip (v :: st) = run f prog (ip + 1) (v :: v :: st) := by
  simp [run, h]

theorem step_pop {prog : List Instr} {ip : Nat}
    (h : prog[ip]? = some .pop) (f : Nat) (v : InterpValue) (st : List InterpValue) :
    run (f + 1) prog ip (v :: st) = run f prog (ip + 1) st := by
  simp [run, h]

theorem step_matchArm {prog : List Instr} {ip : Nat} {p : MatchPattern}
    (h : prog[ip]? = some (.matchArm p)) (f : Nat) (v : InterpValue)
    (st : List InterpValue) :
    run (f + 1) prog ip (v :: st) =
      run f prog (ip + 1) (boolValue (patternMatches p v) :: st) := by
  simp [run, h]

theorem step_jumpDest {prog : List Instr} {ip : Nat}
    (h : prog[ip]? = some .jumpDest) (f : Nat) (st : List InterpValue) :
    run (f + 1) prog ip st = run f prog (ip + 1) st := by
  simp [run, h]

theorem step_jumpRel {prog : List Instr} {ip off : Nat}
    (h : prog[ip]? = some (.jumpRel off)) (f : Nat) (st : List InterpValue) :
    run (f + 1) prog ip st = run f prog (ip + off) st := by
  simp [run, h]

theorem step_jumpRelIf_true {prog : List Instr} {ip off : Nat} {v : InterpValue}
    (h : prog[ip]? = some (.jumpRelIf off)) (hv : v.val ≠ 0) (f : Nat)
    (st : List InterpValue) :
    run (f + 1) prog ip (v :: st) = run f prog (ip + off) st := by
  simp [run, h, hv]

theorem step_jumpRelIf_false {prog : List Instr} {ip off : Nat} {v : InterpValue}
    (h : prog[ip]? = some (.jumpRelIf off)) (hv : v.val = 0) (f : Nat)
    (st : List InterpValue) :
    run (f + 1) prog ip (v :: st) = run f prog (ip + 1) st := by
  simp [run, h, hv]

theorem step_fail {prog : List Instr} {ip : Nat}
    (h : prog[ip]? = some .fail) (f : Nat) (st : List InterpValue) :
    run (f + 1) prog ip st = .failed (st.headD (boolValue false)) := by
  simp [run, h]

end Dslx

namespace Dslx

theorem getElem?_append_at {α : Type} (l₁ l₂ : List α) (i j : Nat)
    (h : i = l₁.length + j) : (l₁ ++ l₂)[i]? = l₂[j]? := by
  subst h
  rw [List.getElem?_append_right (by omega)]
  simp

theorem getElem?_cons_at {α : Type} (a : α) (l : List α) (i j : Nat)
    (h : i = j + 1) : (a :: l)[i]? = l[j]? := by
  subst h
  simp

theorem run_congr (prog : List Instr) (st : List InterpValue)
    {f₁ f₂ ip₁ ip₂ : Nat} (hf : f₁ = f₂) (hip : ip₁ = ip₂) :
    run f₁ prog ip₁ st = run f₂ prog ip₂ st := by
  subst hf; subst hip; rfl

theorem run_bridge {p₁ p₂ : List Instr} {st st' : List InterpValue}
    {a b c d ia ib ic i4 : Nat}
    (h : run b p₂ ib st = run c p₂ ic st') (hp : p₁ = p₂) (hab : a = b)
    (hia : ia = ib) (hcd : c = d) (hic : ic = i4) :
    run a p₁ ia st = run d p₁ i4 st' := by
  subst hp; subst hab; subst hia; subst hcd; subst hic; exact h

end Dslx

namespace Dslx

/-- Compiler correctness for the expression lowering: if the constexpr
interpreter evaluates `e` to `v` and the emitter lowers `e` to `code`, then
the VM, entered at the start of `code` embedded in any surrounding program,
reaches the end of `code` in some exact number `k` of steps having pushed
exactly `v` onto the stack. -/
theorem emit_sim (env : Env) (e : Expr) :
    ∀ (code : List Instr) (v : InterpValue),
    emit env e = .ok code → interp env e = .ok v →
    ∀ (pre post : List Instr) (stack : List InterpValue),
    ∃ k : Nat, ∀ f : Nat,
      run (k + f) (pre ++ code ++ post) pre.length stack =
        run f (pre ++ code ++ post) (pre.length + code.length) (v :: stack) := by
  induction e with
  | number w =>
    intro code v hc hv pre post stack
    simp only [emit, Except.ok.injEq] at hc
    simp only [interp, Except.ok.injEq] at hv
    subst hc
    subst hv
    refine ⟨1, fun f => ?_⟩
    simp only [List.append_assoc]
    show run (1 + f) (pre ++ (Instr.literal w :: post)) pre.length stack =
      run f (pre ++ (Instr.literal w :: post))
        (pre.length + [Instr.literal w].length) (w :: stack)
    have hf : (pre ++ (Instr.literal w :: post))[pre.length]? =
        some (.literal w) := by
      rw [getElem?_append_at pre _ pre.length 0 (by omega)]
      simp
    exact (run_bridge (step_literal hf f stack) rfl (by omega) rfl rfl rfl).trans
      (run_congr _ _ rfl (by simp))
  | nameRef s =>
    intro code v hc hv pre post stack
    cases hl : lookupEnv env s with
    | none => simp [emit, hl] at hc
    | some w =>
      simp only [emit, hl, Except.ok.injEq] at hc
      simp only [interp, hl, Except.ok.injEq] at hv
      subst hc
      subst hv
      refine ⟨1, fun f => ?_⟩
      simp only [List.append_assoc]
      show run (1 + f) (pre ++ (Instr.literal w :: post)) pre.length stack =
        run f (pre ++ (Instr.literal w :: post))
          (pre.length + [Instr.literal w].length) (w :: stack)
      have hf : (pre ++ (Instr.literal w :: post))[pre.length]? =
          some (.literal w) := by
        rw [getElem?_append_at pre _ pre.length 0 (by omega)]
        simp
      exact (run_bridge (step_literal hf f stack) rfl (by omega) rfl rfl
        rfl).trans (run_congr _ _ rfl (by simp))
  | binop op l r ihl ihr =>
    intro code v hc hv pre post stack
    cases h1 : emit env l with
    | error m => simp [emit, h1, Bind.bind, Except.bind] at hc
    | ok c1 =>
    cases h2 : emit env r with
    | error m => simp [emit, h1, h2, Bind.bind, Except.bind] at hc
    | ok c2 =>
    simp only [emit, h1, h2, Bind.bind, Except.bind, Pure.pure, Except.pure,
      Except.ok.injEq] at hc
    cases hv1 : interp env l with
    | error m => simp [interp, hv1, Bind.bind, Except.bind] at hv
    | ok v1 =>
    cases hv2 : interp env r with
    | error m => simp [interp, hv1, hv2, Bind.bind, Except.bind] at hv
    | ok v2 =>
    simp only [interp, hv1, hv2, Bind.bind, Except.bind] at hv
    subst hc
    obtain ⟨k1, A⟩ := ihl c1 v1 h1 hv1 pre (c2 ++ [Instr.binop op] ++ post) stack
    obtain ⟨k2, B⟩ := ihr c2 v2 h2 hv2 (pre ++ c1) ([Instr.binop op] ++ post)
      (v1 :: stack)
    simp only [List.append_assoc, List.cons_append, List.singleton_append,
      List.nil_append, List.length_append] at A B
    refine ⟨k1 + k2 + 1, fun f => ?_⟩
    simp only [List.append_assoc]
    show run (k1 + k2 + 1 + f) (pre ++ (c1 ++ (c2 ++ (Instr.binop op :: post))))
        pre.length stack =
      run f (pre ++ (c1 ++ (c2 ++ (Instr.binop op :: post))))
        (pre.length + (c1 ++ (c2 ++ [Instr.binop op])).length) (v :: stack)
    set PN := pre ++ (c1 ++ (c2 ++ (Instr.binop op :: post))) with hPN
    have hfB : PN[pre.length + c1.length + c2.length]? = some (.binop op) := by
      rw [hPN]
      rw [getElem?_append_at pre _ (pre.length + c1.length + c2.length)
        (c1.length + c2.length) (by omega)]
      rw [getElem?_append_at c1 _ (c1.length + c2.length) c2.length (by omega)]
      rw [getElem?_append_at c2 _ c2.length 0 (by omega)]
      simp
    calc run (k1 + k2 + 1 + f) PN pre.length stack
        = run (k2 + 1 + f) PN (pre.length + c1.length) (v1 :: stack) :=
          run_bridge (A (k2 + 1 + f)) rfl (by omega) rfl rfl rfl
      _ = run (1 + f) PN (pre.length + c1.length + c2.length)
            (v2 :: v1 :: stack) :=
          run_bridge (B (1 + f)) rfl (by omega) (by omega) rfl (by omega)
      _ = run f PN (pre.length + c1.length + c2.length + 1) (v :: stack) :=
          run_bridge (step_binop hfB hv f stack) rfl (by omega) rfl rfl rfl
      _ = run f PN (pre.length + (c1 ++ (c2 ++ [Instr.binop op])).length)
            (v :: stack) :=
          run_congr _ _ rfl (by simp only [List.length_append,
            List.length_cons, List.length_nil]; omega)
  | unop op a iha =>
    intro code v hc hv pre post stack
    cases h1 : emit env a with
    | error m => simp [emit, h1, Bind.bind, Except.bind] at hc
    | ok c1 =>
    simp only [emit, h1, Bind.bind, Except.bind, Pure.pure, Except.pure,
      Except.ok.injEq] at hc
    cases hv1 : interp env a with
    | error m => simp [interp, hv1, Bind.bind, Except.bind] at hv
    | ok v1 =>
    simp only [interp, hv1, Bind.bind, Except.bind] at hv
    subst hc
    obtain ⟨k1, A⟩ := iha c1 v1 h1 hv1 pre ([Instr.unop op] ++ post) stack
    simp only [List.append_assoc, List.cons_append, List.singleton_append,
      List.nil_append, List.length_append] at A
    refine ⟨k1 + 1, fun f => ?_⟩
    simp only [List.append_assoc]
    show run (k1 + 1 + f) (pre ++ (c1 ++ (Instr.unop op :: post)))
        pre.length stack =
      run f (pre ++ (c1 ++ (Instr.unop op :: post)))
        (pre.length + (c1 ++ [Instr.unop op]).length) (v :: stack)
    set PN := pre ++ (c1 ++ (Instr.unop op :: post)) with hPN
    have hfU : PN[pre.length + c1.length]? = some (.unop op) := by
      rw [hPN]
      rw [getElem?_append_at pre _ (pre.length + c1.length) c1.length (by omega)]
      rw [getElem?_append_at c1 _ c1.length 0 (by omega)]
      simp
    calc run (k1 + 1 + f) PN pre.length stack
        = run (1 + f) PN (pre.length + c1.length) (v1 :: stack) :=
          run_bridge (A (1 + f)) rfl (by omega) rfl rfl rfl
      _ = run f PN (pre.length + c1.length + 1) (v :: stack) :=
          run_bridge (step_unop hfU hv f stack) rfl (by omega) rfl rfl rfl
      _ = run f PN (pre.length + (c1 ++ [Instr.unop op]).length) (v :: stack) :=
          run_congr _ _ rfl (by simp only [List.length_append,
            List.length_cons, List.length_nil]; omega)
  | conditional t th el iht ihth ihel =>
    intro code v hc hv pre post stack
    cases h1 : emit env t with
    | error m => simp [emit, h1, Bind.bind, Except.bind] at hc
    | ok tc =>
    cases h2 : emit env th with
    | error m => simp [emit, h1, h2, Bind.bind, Except.bind] at hc
    | ok thc =>
    cases h3 : emit env el with
    | error m => simp [emit, h1, h2, h3, Bind.bind, Except.bind] at hc
    | ok elc =>
    simp only [emit, h1, h2, h3, Bind.bind, Except.bind, Pure.pure,
      Except.pure, Except.ok.injEq] at hc
    cases hvt : interp env t with
    | error m => simp [interp, hvt, Bind.bind, Except.bind] at hv
    | ok tv =>
    simp only [interp, hvt, Bind.bind, Except.bind] at hv
    subst hc
    obtain ⟨kt, A⟩ := iht tc tv h1 hvt pre
      ([Instr.jumpRelIf (elc.length + 2)] ++ elc ++
        [Instr.jumpRel (thc.length + 2), Instr.jumpDest] ++ thc ++
        [Instr.jumpDest] ++ post) stack
    simp only [List.append_assoc, List.cons_append, List.singleton_append,
      List.nil_append, List.length_append] at A
    by_cases htv : tv.val = 0
    · -- test is false: fall through into the else code, then jump to the end
      have hvel : interp env el = .ok v := by simpa [htv] using hv
      obtain ⟨ke, E⟩ := ihel elc v h3 hvel
        (pre ++ tc ++ [Instr.jumpRelIf (elc.length + 2)])
        ([Instr.jumpRel (thc.length + 2), Instr.jumpDest] ++ thc ++
          [Instr.jumpDest] ++ post) stack
      simp only [List.append_assoc, List.cons_append, List.singleton_append,
        List.nil_append, List.length_append, List.length_cons,
        List.length_nil] at E
      refine ⟨kt + ke + 3, fun f => ?_⟩
      simp only [List.append_assoc, List.cons_append, List.singleton_append,
        List.nil_append]
      show run (kt + ke + 3 + f)
          (pre ++ (tc ++ (Instr.jumpRelIf (elc.length + 2) ::
            (elc ++ (Instr.jumpRel (thc.length + 2) :: Instr.jumpDest ::
              (thc ++ (Instr.jumpDest :: post))))))) pre.length stack =
        run f (pre ++ (tc ++ (Instr.jumpRelIf (elc.length + 2) ::
            (elc ++ (Instr.jumpRel (thc.length + 2) :: Instr.jumpDest ::
              (thc ++ (Instr.jumpDest :: post)))))))
          (pre.length + (tc ++ (Instr.jumpRelIf (elc.length + 2) ::
            (elc ++ (Instr.jumpRel (thc.length + 2) :: Instr.jumpDest ::
              (thc ++ [Instr.jumpDest]))))).length) (v :: stack)
      set PN := pre ++ (tc ++ (Instr.jumpRelIf (elc.length + 2) ::
        (elc ++ (Instr.jumpRel (thc.length + 2) :: Instr.jumpDest ::
          (thc ++ (Instr.jumpDest :: post)))))) with hPN
      have hfIf : PN[pre.length + tc.length]? =
          some (.jumpRelIf (elc.length + 2)) := by
        rw [hPN]
        rw [getElem?_append_at pre _ (pre.length + tc.length) tc.length
          (by omega)]
        rw [getElem?_append_at tc _ tc.length 0 (by omega)]
        simp
      have hfRel : PN[pre.length + tc.length + 1 + elc.length]? =
          some (.jumpRel (thc.length + 2)) := by
        rw [hPN]
        rw [getElem?_append_at pre _ (pre.length + tc.length + 1 + elc.length)
          (tc.length + 1 + elc.length) (by omega)]
        rw [getElem?_append_at tc _ (tc.length + 1 + elc.length)
          (1 + elc.length) (by omega)]
        rw [getElem?_cons_at _ _ (1 + elc.length) elc.length (by omega)]
        rw [getElem?_append_at elc _ elc.length 0 (by omega)]
        simp
      have hfD : PN[pre.length + tc.length + 1 + elc.length +
          (thc.length + 2)]? = some .jumpDest := by
        rw [hPN]
        rw [getElem?_append_at pre _
          (pre.length + tc.length + 1 + elc.length + (thc.length + 2))
          (tc.length + 1 + elc.length + (thc.length + 2)) (by omega)]
        rw [getElem?_append_at tc _
          (tc.length + 1 + elc.length + (thc.length + 2))
          (1 + elc.length + (thc.length + 2)) (by omega)]
        rw [getElem?_cons_at _ _ (1 + elc.length + (thc.length + 2))
          (elc.length + (thc.length + 2)) (by omega)]
        rw [getElem?_append_at elc _ (elc.length + (thc.length + 2))
          (thc.length + 2) (by omega)]
        rw [getElem?_cons_at _ _ (thc.length + 2) (thc.length + 1) (by omega)]
        rw [getElem?_cons_at _ _ (thc.length + 1) thc.length (by omega)]
        rw [getElem?_append_at thc _ thc.length 0 (by omega)]
        simp
      calc run (kt + ke + 3 + f) PN pre.length stack
          = run (ke + 3 + f) PN (pre.length + tc.length) (tv :: stack) :=
            run_bridge (A (ke + 3 + f)) rfl (by omega) rfl rfl rfl
        _ = run (ke + 2 + f) PN (pre.length + tc.length + 1) stack :=
            run_bridge (step_jumpRelIf_false hfIf htv (ke + 2 + f) stack) rfl
              (by omega) rfl rfl rfl
        _ = run (2 + f) PN (pre.length + tc.length + 1 + elc.length)
              (v :: stack) :=
            run_bridge (E (2 + f)) rfl (by omega) (by omega) rfl (by omega)
        _ = run (1 + f) PN (pre.length + tc.length + 1 + elc.length +
              (thc.length + 2)) (v :: stack) :=
            run_bridge (step_jumpRel hfRel (1 + f) (v :: stack)) rfl (by omega)
              rfl rfl rfl
        _ = run f PN (pre.length + tc.length + 1 + elc.length +
              (thc.length + 2) + 1) (v :: stack) :=
            run_bridge (step_jumpDest hfD f (v :: stack)) rfl (by omega) rfl
              rfl rfl
        _ = run f PN (pre.length + (tc ++ (Instr.jumpRelIf (elc.length + 2) ::
              (elc ++ (Instr.jumpRel (thc.length + 2) :: Instr.jumpDest ::
                (thc ++ [Instr.jumpDest]))))).length) (v :: stack) :=
            run_congr _ _ rfl (by simp only [List.length_append,
              List.length_cons, List.length_nil]; omega)
    · -- test is true: jump over the else code to the then code
      have hvth : interp env th = .ok v := by simpa [htv] using hv
      obtain ⟨kth, B⟩ := ihth thc v h2 hvth
        (pre ++ tc ++ [Instr.jumpRelIf (elc.length + 2)] ++ elc ++
          [Instr.jumpRel (thc.length + 2), Instr.jumpDest])
        ([Instr.jumpDest] ++ post) stack
      simp only [List.append_assoc, List.cons_append, List.singleton_append,
        List.nil_append, List.length_append, List.length_cons,
        List.length_nil] at B
      refine ⟨kt + kth + 3, fun f => ?_⟩
      simp only [List.append_assoc, List.cons_append, List.singleton_append,
        List.nil_append]
      show run (kt + kth + 3 + f)
          (pre ++ (tc ++ (Instr.jumpRelIf (elc.length + 2) ::
            (elc ++ (Instr.jumpRel (thc.length + 2) :: Instr.jumpDest ::
              (thc ++ (Instr.jumpDest :: post))))))) pre.length stack =
        run f (pre ++ (tc ++ (Instr.jumpRelIf (elc.length + 2) ::
            (elc ++ (Instr.jumpRel (thc.length + 2) :: Instr.jumpDest ::
              (thc ++ (Instr.jumpDest :: post)))))))
          (pre.length + (tc ++ (Instr.jumpRelIf (elc.length + 2) ::
            (elc ++ (Instr.jumpRel (thc.length + 2) :: Instr.jumpDest ::
              (thc ++ [Instr.jumpDest]))))).length) (v :: stack)
      set PN := pre ++ (tc ++ (Instr.jumpRelIf (elc.length + 2) ::
        (elc ++ (Instr.jumpRel (thc.length + 2) :: Instr.jumpDest ::
          (thc ++ (Instr.jumpDest :: post)))))) with hPN
      have hfIf : PN[pre.length + tc.length]? =
          some (.jumpRelIf (elc.length + 2)) := by
        rw [hPN]
        rw [getElem?_append_at pre _ (pre.length + tc.length) tc.length
          (by omega)]
        rw [getElem?_append_at tc _ tc.length 0 (by omega)]
        simp
      have hfD1 : PN[pre.length + tc.length + (elc.length + 2)]? =
          some .jumpDest := by
        rw [hPN]
        rw [getElem?_append_at pre _
          (pre.length + tc.length + (elc.length + 2))
          (tc.length + (elc.length + 2)) (by omega)]
        rw [getElem?_append_at tc _ (tc.length + (elc.length + 2))
          (elc.length + 2) (by omega)]
        rw [getElem?_cons_at _ _ (elc.length + 2) (elc.length + 1) (by omega)]
        rw [getElem?_append_at elc _ (elc.length + 1) 1 (by omega)]
        simp
      have hfD2 : PN[pre.length + tc.length + elc.length + 3 + thc.length]? =
          some .jumpDest := by
        rw [hPN]
        rw [getElem?_append_at pre _
          (pre.length + tc.length + elc.length + 3 + thc.length)
          (tc.length + elc.length + 3 + thc.length) (by omega)]
        rw [getElem?_append_at tc _
          (tc.length + elc.length + 3 + thc.length)
          (elc.length + 2 + thc.length + 1) (by omega)]
        rw [getElem?_cons_at _ _ (elc.length + 2 + thc.length + 1)
          (elc.length + 2 + thc.length) (by omega)]
        rw [getElem?_append_at elc _ (elc.length + 2 + thc.length)
          (thc.length + 2) (by omega)]
        rw [getElem?_cons_at _ _ (thc.length + 2) (thc.length + 1) (by omega)]
        rw [getElem?_cons_at _ _ (thc.length + 1) thc.length (by omega)]
        rw [getElem?_append_at thc _ thc.length 0 (by omega)]
        simp
      calc run (kt + kth + 3 + f) PN pre.length stack
          = run (kth + 3 + f) PN (pre.length + tc.length) (tv :: stack) :=
            run_bridge (A (kth + 3 + f)) rfl (by omega) rfl rfl rfl
        _ = run (kth + 2 + f) PN (pre.length + tc.length + (elc.length + 2))
              stack :=
            run_bridge (step_jumpRelIf_true hfIf htv (kth + 2 + f) stack) rfl
              (by omega) rfl rfl rfl
        _ = run (kth + 1 + f) PN
              (pre.length + tc.length + (elc.length + 2) + 1) stack :=
            run_bridge (step_jumpDest hfD1 (kth + 1 + f) stack) rfl (by omega)
              rfl rfl rfl
        _ = run (1 + f) PN
              (pre.length + tc.length + elc.length + 3 + thc.length)
              (v :: stack) :=
            run_bridge (B (1 + f)) rfl (by omega) (by omega) rfl (by omega)
        _ = run f PN
              (pre.length + tc.length + elc.length + 3 + thc.length + 1)
              (v :: stack) :=
            run_bridge (step_jumpDest hfD2 f (v :: stack)) rfl (by omega) rfl
              rfl rfl
        _ = run f PN (pre.length + (tc ++ (Instr.jumpRelIf (elc.length + 2) ::
              (elc ++ (Instr.jumpRel (thc.length + 2) :: Instr.jumpDest ::
                (thc ++ [Instr.jumpDest]))))).length) (v :: stack) :=
            run_congr _ _ rfl (by simp only [List.length_append,
              List.length_cons, List.length_nil]; omega)

end Dslx

namespace Dslx

/-- For a constexpr expression the emitter always succeeds (the only emission
failure is an unbound name, which would make the expression non-constexpr). -/
theorem emit_total (env : Env) :
    ∀ e : Expr, isConstexpr env e = true → ∃ code, emit env e = .ok code := by
  intro e
  induction e with
  | number w => exact fun _ => ⟨[.literal w], rfl⟩
  | nameRef s =>
    intro h
    simp only [isConstexpr, Option.isSome_iff_exists] at h
    obtain ⟨w, hw⟩ := h
    exact ⟨[.literal w], by simp [emit, hw]⟩
  | binop op l r ihl ihr =>
    intro h
    simp only [isConstexpr, Bool.and_eq_true] at h
    obtain ⟨c1, h1⟩ := ihl h.1
    obtain ⟨c2, h2⟩ := ihr h.2
    exact ⟨c1 ++ c2 ++ [.binop op], by simp [emit, h1, h2, Bind.bind,
      Except.bind, Pure.pure, Except.pure]⟩
  | unop op a iha =>
    intro h
    simp only [isConstexpr] at h
    obtain ⟨c1, h1⟩ := iha h
    exact ⟨c1 ++ [.unop op], by simp [emit, h1, Bind.bind, Except.bind,
      Pure.pure, Except.pure]⟩
  | conditional t th el iht ihth ihel =>
    intro h
    simp only [isConstexpr, Bool.and_eq_true] at h
    obtain ⟨tc, h1⟩ := iht h.1.1
    obtain ⟨thc, h2⟩ := ihth h.1.2
    obtain ⟨elc, h3⟩ := ihel h.2
    exact ⟨tc ++ [.jumpRelIf (elc.length + 2)] ++ elc ++
      [.jumpRel (thc.length + 2), .jumpDest] ++ thc ++ [.jumpDest],
      by simp [emit, h1, h2, h3, Bind.bind, Except.bind, Pure.pure,
        Except.pure]⟩

/-- Unfolding of `EvaluateToValue`: success is exactly "constexpr and the
interpretation succeeds". -/
theorem evaluateToValue_ok_iff (env : Env) (e : Expr) (v : InterpValue) :
    EvaluateToValue env e = .ok v ↔
      (isConstexpr env e = true ∧ interp env e = .ok v) := by
  unfold EvaluateToValue Evaluate
  by_cases hce : isConstexpr env e = true
  · cases hi : interp env e <;> simp [hce, hi]
  · simp [hce]

end Dslx

/-- C1: constexpr/VM agreement.  For every expression that the constexpr
evaluator marks constexpr with value `v` (`EvaluateToValue` succeeds), under
every constexpr environment (the sampled ParametricEnv merged with constexpr
free variables), the bytecode emitted for the expression exists and running
it on the VM from an empty stack completes with exactly the value `v` on the
stack — bit-for-bit the evaluator's result, both sides sharing the
signed/unsigned fixed-width wraparound semantics of `binopEval`/`unopEval`. -/
theorem constexpr_vm_agreement (env : Dslx.Env) (e : Dslx.Expr)
    (v : Dslx.InterpValue) (h : Dslx.EvaluateToValue env e = .ok v) :
    ∃ code : List Dslx.Instr, Dslx.emit env e = .ok code ∧
      ∃ k : Nat, ∀ f : Nat,
        Dslx.run (k + f) code 0 [] = .completed [v] := by
  rw [Dslx.evaluateToValue_ok_iff] at h
  obtain ⟨code, hcode⟩ := Dslx.emit_total env e h.1
  refine ⟨code, hcode, ?_⟩
  obtain ⟨k, S⟩ := Dslx.emit_sim env e code v hcode h.2 [] [] []
  refine ⟨k + 1, fun f => ?_⟩
  have h1 : Dslx.run (k + (f + 1)) ([] ++ code ++ []) ([] : List Dslx.Instr).length [] =
      Dslx.run (f + 1) ([] ++ code ++ [])
        (([] : List Dslx.Instr).length + code.length) [v] := S (f + 1)
  simp only [List.nil_append, List.append_nil, List.length_nil,
    Nat.zero_add] at h1
  have h2 : Dslx.run (k + 1 + f) code 0 [] = Dslx.run (f + 1) code code.length [v] := by
    rw [← h1]
    exact Dslx.run_congr _ _ (by omega) rfl
  rw [h2, Dslx.run_completed]

/-- Witness for C1: the constexpr expression
`if N < u32:10 { N * N } else { u32:0 }` under the environment `N = u32:8`
evaluates to `u32:64`, and the emitted bytecode runs to the same value. -/
theorem constexpr_vm_agreement_witness :
    Dslx.EvaluateToValue [("N", ⟨false, 32, 8⟩)]
        (.conditional
          (.binop .cmpLt (.nameRef "N") (.number ⟨false, 32, 10⟩))
          (.binop .mul (.nameRef "N") (.nameRef "N"))
          (.number ⟨false, 32, 0⟩)) = .ok ⟨false, 32, 64⟩ ∧
    (∃ code : List Dslx.Instr,
      Dslx.emit [("N", ⟨false, 32, 8⟩)]
        (.conditional
          (.binop .cmpLt (.nameRef "N") (.number ⟨false, 32, 10⟩))
          (.binop .mul (.nameRef "N") (.nameRef "N"))
          (.number ⟨false, 32, 0⟩)) = .ok code ∧
      ∃ k : Nat, ∀ f : Nat,
        Dslx.run (k + f) code 0 [] = .completed [⟨false, 32, 64⟩]) :=
  ⟨rfl,
   constexpr_vm_agreement [("N", ⟨false, 32, 8⟩)] _ _ rfl⟩

/-- C9: the constexpr evaluator's error contract.  `Evaluate` succeeds on
every expression on which no genuine evaluation error occurs — in particular
on every non-constexpr expression, where it records nothing (`none`) —
while `EvaluateToValue` returns the recorded value exactly when the
expression is constexpr and interpretation succeeds, returns the dedicated
`notConstexpr` error when the expression is not constexpr, and propagates a
genuine evaluation error (e.g. division by zero in a constexpr expression)
as an `evalError`. -/
theorem constexpr_evaluate_contract (env : Dslx.Env) (e : Dslx.Expr) :
    (¬ Dslx.isConstexpr env e = true → Dslx.Evaluate env e = .ok none) ∧
    (∀ v, Dslx.EvaluateToValue env e = .ok v ↔
      (Dslx.isConstexpr env e = true ∧ Dslx.interp env e = .ok v)) ∧
    (¬ Dslx.isConstexpr env e = true →
      Dslx.EvaluateToValue env e = .error .notConstexpr) ∧
    (∀ m, Dslx.isConstexpr env e = true → Dslx.interp env e = .error m →
      Dslx.Evaluate env e = .error m ∧
        Dslx.EvaluateToValue env e = .error (.evalError m)) := by
  refine ⟨?_, fun v => Dslx.evaluateToValue_ok_iff env e v, ?_, ?_⟩
  · intro h
    simp [Dslx.Evaluate, h]
  · intro h
    simp [Dslx.EvaluateToValue, Dslx.Evaluate, h]
  · intro m hce hi
    constructor
    · simp [Dslx.Evaluate, hce, hi]
    · simp [Dslx.EvaluateToValue, Dslx.Evaluate, hce, hi]

/-- Witness for C9: an unbound name is non-constexpr — `Evaluate` still
succeeds (recording nothing) while `EvaluateToValue` reports `notConstexpr`;
a constexpr division by zero is a genuine (hard) evaluation error. -/
theorem constexpr_evaluate_contract_witness :
    Dslx.Evaluate [] (.nameRef "x") = .ok none ∧
    Dslx.EvaluateToValue [] (.nameRef "x") = .error .notConstexpr ∧
    Dslx.EvaluateToValue []
      (.binop .div (.number ⟨false, 32, 1⟩) (.number ⟨false, 32, 0⟩)) =
      .error (.evalError "division by zero") :=
  ⟨(constexpr_evaluate_contract [] (.nameRef "x")).1 (by decide),
   (constexpr_evaluate_contract [] (.nameRef "x")).2.2.1 (by decide),
   ((constexpr_evaluate_contract []
      (.binop .div (.number ⟨false, 32, 1⟩) (.number ⟨false, 32, 0⟩))).2.2.2
      "division by zero" (by decide) rfl).2⟩

namespace Dslx

/-- Modelled from the spec: parametric instantiation for the function
`fn f<N: u32>(x: uN[N]) -> uN[N] { x * x }` (the deduction engine and
interpreter implementations are not among the visible sources).  The
parametric binding `N` is taken from the explicit invocation binding when
present (checked against its declared type `u32`), otherwise unified from
the argument type `uN[N]`; the argument must then have type `uN[N]`; the
deduced return type is `uN[N]` and the result is the body `x * x` evaluated
by the constexpr machinery under `x := arg`. -/
def instantiateParametricSquare (explicitN : Option InterpValue)
    (arg : InterpValue) : Except String (Nat × InterpValue) :=
  let bindN : Except String Nat :=
    match explicitN with
    | some nv =>
      if nv.signed = false ∧ nv.width = 32 then .ok nv.val
      else .error "parametric binding type mismatch: expected u32"
    | none => .ok arg.width
  match bindN with
  | .error m => .error m
  | .ok N =>
    if arg.signed = false ∧ arg.width = N then
      match EvaluateToValue [("x", arg)]
          (.binop .mul (.nameRef "x") (.nameRef "x")) with
      | .ok v => .ok (N, v)
      | .error _ => .error "evaluation error"
    else .error "argument type mismatch"

end Dslx

/-- C5: for `fn f<N: u32>(x: uN[N]) -> uN[N] { x * x }`, the invocation
`f<u32:16>(u16:4)` deduces `N = 16` — so return type `uN[16] = u16` — and
evaluates to `u16:16`; the invocation `f(u32:8)` infers `N = 32` from the
argument type and evaluates to `u32:64`. -/
theorem parametric_square_instantiation :
    Dslx.instantiateParametricSquare (some ⟨false, 32, 16⟩) ⟨false, 16, 4⟩ =
      .ok (16, ⟨false, 16, 16⟩) ∧
    Dslx.instantiateParametricSquare none ⟨false, 32, 8⟩ =
      .ok (32, ⟨false, 32, 64⟩) := by
  constructor <;> rfl

namespace Dslx

/-- Modelled from the spec and the exact sequence pinned by the
`MatchSimpleArms` emitter test: lowering of the arm list of a `match`.  Each
arm becomes `dup; match_arm pattern; invert; jump_rel_if (body+3); pop;
body; jump_rel (rest+1); jump_dest`, and after the last arm a terminal
`fail` (whose payload is the duplicated scrutinee still on the stack)
followed by the final `jump_dest`. -/
def emitArms (env : Env) : List (MatchPattern × Expr) → Except String (List Instr)
  | [] => .ok [.fail, .jumpDest]
  | (p, body) :: rest => do
    let bc ← emit env body
    let rc ← emitArms env rest
    pure ([.dup, .matchArm p, .unop .invert, .jumpRelIf (bc.length + 3), .pop] ++
      bc ++ [.jumpRel (rc.length + 1), .jumpDest] ++ rc)

/-- Modelled from the spec: lowering of a whole `match` expression —
scrutinee code followed by the arm chain of `emitArms`. -/
def emitMatch (env : Env) (scrut : Expr) (arms : List (MatchPattern × Expr)) :
    Except String (List Instr) := do
  pure ((← emit env scrut) ++ (← emitArms env arms))

theorem invert_boolValue (b : Bool) :
    unopEval .invert (boolValue b) = .ok (boolValue (!b)) := by
  cases b <;> rfl

theorem boolValue_true_val : (boolValue true).val ≠ 0 := by
  simp [boolValue]

theorem boolValue_false_val : (boolValue false).val = 0 := by
  simp [boolValue]

/-- The code produced by `emitArms` is at least two instructions long and
always ends in the terminal `jump_dest` (the landing pad past the `fail`). -/
theorem emitArms_last (env : Env) :
    ∀ (arms : List (MatchPattern × Expr)) (rc : List Instr),
    emitArms env arms = .ok rc →
    2 ≤ rc.length ∧ rc[rc.length - 1]? = some .jumpDest := by
  intro arms
  induction arms with
  | nil =>
    intro rc h
    simp only [emitArms, Except.ok.injEq] at h
    subst h
    exact ⟨by simp, by simp⟩
  | cons hd rest ih =>
    intro rc h
    obtain ⟨p, b⟩ := hd
    cases hbc : emit env b with
    | error m => simp [emitArms, hbc, Bind.bind, Except.bind] at h
    | ok bc =>
    cases hrc : emitArms env rest with
    | error m => simp [emitArms, hbc, hrc, Bind.bind, Except.bind] at h
    | ok rc' =>
    simp only [emitArms, hbc, hrc, Bind.bind, Except.bind, Pure.pure,
      Except.pure, Except.ok.injEq] at h
    subst h
    obtain ⟨hlen, hlast⟩ := ih rc' hrc
    constructor
    · simp
    · simp only [List.append_assoc, List.cons_append, List.singleton_append,
        List.nil_append, List.length_append, List.length_cons, List.length_nil]
      rw [getElem?_cons_at _ _ _
        (4 + (bc.length + (rc'.length + 1 + 1)) - 1) (by omega)]
      rw [getElem?_cons_at _ _ _
        (3 + (bc.length + (rc'.length + 1 + 1)) - 1) (by omega)]
      rw [getElem?_cons_at _ _ _
        (2 + (bc.length + (rc'.length + 1 + 1)) - 1) (by omega)]
      rw [getElem?_cons_at _ _ _
        (1 + (bc.length + (rc'.length + 1 + 1)) - 1) (by omega)]
      rw [getElem?_cons_at _ _ _
        (bc.length + (rc'.length + 1 + 1) - 1) (by omega)]
      rw [getElem?_append_at bc _ _ (rc'.length + 1) (by omega)]
      rw [getElem?_cons_at _ _ _ rc'.length (by omega)]
      rw [getElem?_cons_at _ _ _ (rc'.length - 1) (by omega)]
      exact hlast

end Dslx

namespace Dslx

/-- One lowered match arm, when its pattern does not match the scrutinee on
top of the stack: the VM takes exactly 5 steps (dup, match_arm, invert,
taken jump_rel_if, landing jump_dest) to the start of the remaining arm
code, leaving the scrutinee on the stack. -/
theorem arm_step_mismatch (_env : Env) (p : MatchPattern) (bc rc' : List Instr)
    (pre post : List Instr) (stack : List InterpValue) (v : InterpValue)
    (hpv : patternMatches p v = false) :
    ∀ f, run (5 + f)
        (pre ++ (Instr.dup :: Instr.matchArm p :: Instr.unop .invert ::
          Instr.jumpRelIf (bc.length + 3) :: Instr.pop ::
          (bc ++ (Instr.jumpRel (rc'.length + 1) :: Instr.jumpDest ::
            (rc' ++ post))))) pre.length (v :: stack) =
      run f
        (pre ++ (Instr.dup :: Instr.matchArm p :: Instr.unop .invert ::
          Instr.jumpRelIf (bc.length + 3) :: Instr.pop ::
          (bc ++ (Instr.jumpRel (rc'.length + 1) :: Instr.jumpDest ::
            (rc' ++ post))))) (pre.length + 7 + bc.length) (v :: stack) := by
  intro f
  set PN := pre ++ (Instr.dup :: Instr.matchArm p :: Instr.unop .invert ::
    Instr.jumpRelIf (bc.length + 3) :: Instr.pop ::
    (bc ++ (Instr.jumpRel (rc'.length + 1) :: Instr.jumpDest ::
      (rc' ++ post)))) with hPN
  have f0 : PN[pre.length]? = some .dup := by
    rw [hPN, getElem?_append_at pre _ pre.length 0 (by omega)]
    simp
  have f1 : PN[pre.length + 1]? = some (.matchArm p) := by
    rw [hPN, getElem?_append_at pre _ (pre.length + 1) 1 (by omega),
      getElem?_cons_at _ _ 1 0 (by omega)]
    simp
  have f2 : PN[pre.length + 2]? = some (.unop .invert) := by
    rw [hPN, getElem?_append_at pre _ (pre.length + 2) 2 (by omega),
      getElem?_cons_at _ _ 2 1 (by omega), getElem?_cons_at _ _ 1 0 (by omega)]
    simp
  have f3 : PN[pre.length + 3]? = some (.jumpRelIf (bc.length + 3)) := by
    rw [hPN, getElem?_append_at pre _ (pre.length + 3) 3 (by omega),
      getElem?_cons_at _ _ 3 2 (by omega), getElem?_cons_at _ _ 2 1 (by omega),
      getElem?_cons_at _ _ 1 0 (by omega)]
    simp
  have f6 : PN[pre.length + 3 + (bc.length + 3)]? = some .jumpDest := by
    rw [hPN, getElem?_append_at pre _ (pre.length + 3 + (bc.length + 3))
        (bc.length + 6) (by omega),
      getElem?_cons_at _ _ (bc.length + 6) (bc.length + 5) (by omega),
      getElem?_cons_at _ _ (bc.length + 5) (bc.length + 4) (by omega),
      getElem?_cons_at _ _ (bc.length + 4) (bc.length + 3) (by omega),
      getElem?_cons_at _ _ (bc.length + 3) (bc.length + 2) (by omega),
      getElem?_cons_at _ _ (bc.length + 2) (bc.length + 1) (by omega),
      getElem?_append_at bc _ (bc.length + 1) 1 (by omega),
      getElem?_cons_at _ _ 1 0 (by omega)]
    simp
  have hbfalse : unopEval .invert (boolValue false) = .ok (boolValue true) := rfl
  calc run (5 + f) PN pre.length (v :: stack)
      = run (4 + f) PN (pre.length + 1) (v :: v :: stack) :=
        run_bridge (step_dup f0 (4 + f) v stack) rfl (by omega) rfl rfl rfl
    _ = run (3 + f) PN (pre.length + 2) (boolValue false :: v :: stack) := by
        have h := step_matchArm f1 (3 + f) v (v :: stack)
        rw [hpv] at h
        exact run_bridge h rfl (by omega) rfl rfl (by omega)
    _ = run (2 + f) PN (pre.length + 3) (boolValue true :: v :: stack) :=
        run_bridge (step_unop f2 hbfalse (2 + f) (v :: stack)) rfl (by omega)
          rfl rfl (by omega)
    _ = run (1 + f) PN (pre.length + 3 + (bc.length + 3)) (v :: stack) :=
        run_bridge (step_jumpRelIf_true f3 boolValue_true_val (1 + f)
          (v :: stack)) rfl (by omega) rfl rfl rfl
    _ = run f PN (pre.length + 3 + (bc.length + 3) + 1) (v :: stack) :=
        run_bridge (step_jumpDest f6 f (v :: stack)) rfl (by omega) rfl rfl rfl
    _ = run f PN (pre.length + 7 + bc.length) (v :: stack) :=
        run_congr PN _ rfl (by omega)

/-- One lowered match arm, when its pattern matches the scrutinee and its
body evaluates to `w`: the VM pops the scrutinee, runs the body, and jumps
to the terminal `jump_dest`, ending just past the whole arm chain with `w`
pushed. -/
theorem arm_step_match (env : Env) (p : MatchPattern) (b : Expr)
    (bc rc' : List Instr) (pre post : List Instr) (stack : List InterpValue)
    (v w : InterpValue) (hbc : emit env b = .ok bc)
    (hpv : patternMatches p v = true) (hw : interp env b = .ok w)
    (hlen : 2 ≤ rc'.length) (hlast : rc'[rc'.length - 1]? = some .jumpDest) :
    ∃ k, ∀ f, run (k + f)
        (pre ++ (Instr.dup :: Instr.matchArm p :: Instr.unop .invert ::
          Instr.jumpRelIf (bc.length + 3) :: Instr.pop ::
          (bc ++ (Instr.jumpRel (rc'.length + 1) :: Instr.jumpDest ::
            (rc' ++ post))))) pre.length (v :: stack) =
      run f
        (pre ++ (Instr.dup :: Instr.matchArm p :: Instr.unop .invert ::
          Instr.jumpRelIf (bc.length + 3) :: Instr.pop ::
          (bc ++ (Instr.jumpRel (rc'.length + 1) :: Instr.jumpDest ::
            (rc' ++ post))))) (pre.length + 7 + bc.length + rc'.length)
        (w :: stack) := by
  obtain ⟨kb, S⟩ := emit_sim env b bc w hbc hw
    (pre ++ [Instr.dup, Instr.matchArm p, Instr.unop .invert,
      Instr.jumpRelIf (bc.length + 3), Instr.pop])
    ([Instr.jumpRel (rc'.length + 1), Instr.jumpDest] ++ rc' ++ post) stack
  simp only [List.append_assoc, List.cons_append, List.singleton_append,
    List.nil_append, List.length_append, List.length_cons,
    List.length_nil] at S
  refine ⟨kb + 7, fun f => ?_⟩
  set PN := pre ++ (Instr.dup :: Instr.matchArm p :: Instr.unop .invert ::
    Instr.jumpRelIf (bc.length + 3) :: Instr.pop ::
    (bc ++ (Instr.jumpRel (rc'.length + 1) :: Instr.jumpDest ::
      (rc' ++ post)))) with hPN
  have f0 : PN[pre.length]? = some .dup := by
    rw [hPN, getElem?_append_at pre _ pre.length 0 (by omega)]
    simp
  have f1 : PN[pre.length + 1]? = some (.matchArm p) := by
    rw [hPN, getElem?_append_at pre _ (pre.length + 1) 1 (by omega),
      getElem?_cons_at _ _ 1 0 (by omega)]
    simp
  have f2 : PN[pre.length + 2]? = some (.unop .invert) := by
    rw [hPN, getElem?_append_at pre _ (pre.length + 2) 2 (by omega),
      getElem?_cons_at _ _ 2 1 (by omega), getElem?_cons_at _ _ 1 0 (by omega)]
    simp
  have f3 : PN[pre.length + 3]? = some (.jumpRelIf (bc.length + 3)) := by
    rw [hPN, getElem?_append_at pre _ (pre.length + 3) 3 (by omega),
      getElem?_cons_at _ _ 3 2 (by omega), getElem?_cons_at _ _ 2 1 (by omega),
      getElem?_cons_at _ _ 1 0 (by omega)]
    simp
  have f4 : PN[pre.length + 4]? = some .pop := by
    rw [hPN, getElem?_append_at pre _ (pre.length + 4) 4 (by omega),
      getElem?_cons_at _ _ 4 3 (by omega), getElem?_cons_at _ _ 3 2 (by omega),
      getElem?_cons_at _ _ 2 1 (by omega), getElem?_cons_at _ _ 1 0 (by omega)]
    simp
  have f5 : PN[pre.length + 5 + bc.length]? =
      some (.jumpRel (rc'.length + 1)) := by
    rw [hPN, getElem?_append_at pre _ (pre.length + 5 + bc.length)
        (bc.length + 5) (by omega),
      getElem?_cons_at _ _ (bc.length + 5) (bc.length + 4) (by omega),
      getElem?_cons_at _ _ (bc.length + 4) (bc.length + 3) (by omega),
      getElem?_cons_at _ _ (bc.length + 3) (bc.length + 2) (by omega),
      getElem?_cons_at _ _ (bc.length + 2) (bc.length + 1) (by omega),
      getElem?_cons_at _ _ (bc.length + 1) bc.length (by omega),
      getElem?_append_at bc _ bc.length 0 (by omega)]
    simp
  have fT : PN[pre.length + 5 + bc.length + (rc'.length + 1)]? =
      some .jumpDest := by
    rw [hPN, getElem?_append_at pre _
        (pre.length + 5 + bc.length + (rc'.length + 1))
        (bc.length + rc'.length + 6) (by omega),
      getElem?_cons_at _ _ (bc.length + rc'.length + 6)
        (bc.length + rc'.length + 5) (by omega),
      getElem?_cons_at _ _ (bc.length + rc'.length + 5)
        (bc.length + rc'.length + 4) (by omega),
      getElem?_cons_at _ _ (bc.length + rc'.length + 4)
        (bc.length + rc'.length + 3) (by omega),
      getElem?_cons_at _ _ (bc.length + rc'.length + 3)
        (bc.length + rc'.length + 2) (by omega),
      getElem?_cons_at _ _ (bc.length + rc'.length + 2)
        (bc.length + rc'.length + 1) (by omega),
      getElem?_append_at bc _ (bc.length + rc'.length + 1)
        (rc'.length + 1) (by omega),
      getElem?_cons_at _ _ (rc'.length + 1) rc'.length (by omega),
      getElem?_cons_at _ _ rc'.length (rc'.length - 1) (by omega),
      List.getElem?_append_left (by omega : rc'.length - 1 < rc'.length)]
    exact hlast
  have hbtrue : unopEval .invert (boolValue true) = .ok (boolValue false) := rfl
  calc run (kb + 7 + f) PN pre.length (v :: stack)
      = run (kb + 6 + f) PN (pre.length + 1) (v :: v :: stack) :=
        run_bridge (step_dup f0 (kb + 6 + f) v stack) rfl (by omega) rfl rfl rfl
    _ = run (kb + 5 + f) PN (pre.length + 2)
          (boolValue true :: v :: stack) := by
        have h := step_matchArm f1 (kb + 5 + f) v (v :: stack)
        rw [hpv] at h
        exact run_bridge h rfl (by omega) rfl rfl (by omega)
    _ = run (kb + 4 + f) PN (pre.length + 3)
          (boolValue false :: v :: stack) :=
        run_bridge (step_unop f2 hbtrue (kb + 4 + f) (v :: stack)) rfl
          (by omega) rfl rfl (by omega)
    _ = run (kb + 3 + f) PN (pre.length + 4) (v :: stack) :=
        run_bridge (step_jumpRelIf_false f3 boolValue_false_val (kb + 3 + f)
          (v :: stack)) rfl (by omega) rfl rfl rfl
    _ = run (kb + 2 + f) PN (pre.length + 5) stack :=
        run_bridge (step_pop f4 (kb + 2 + f) v stack) rfl (by omega) rfl rfl rfl
    _ = run (2 + f) PN (pre.length + 5 + bc.length) (w :: stack) :=
        run_bridge (S (2 + f)) rfl (by omega) (by omega) rfl (by omega)
    _ = run (1 + f) PN (pre.length + 5 + bc.length + (rc'.length + 1))
          (w :: stack) :=
        run_bridge (step_jumpRel f5 (1 + f) (w :: stack)) rfl (by omega) rfl
          rfl rfl
    _ = run f PN (pre.length + 5 + bc.length + (rc'.length + 1) + 1)
          (w :: stack) :=
        run_bridge (step_jumpDest fT f (w :: stack)) rfl (by omega) rfl rfl rfl
    _ = run f PN (pre.length + 7 + bc.length + rc'.length) (w :: stack) :=
        run_congr PN _ rfl (by omega)

end Dslx

namespace Dslx

/-- Running the lowered arm chain with the scrutinee on top of the stack:
if no arm pattern matches, execution reaches the terminal `fail` and the VM
fails carrying the scrutinee; if some arm matches, the first matching arm's
body runs and execution ends just past the chain with the body's value. -/
theorem emitArms_sim (env : Env) :
    ∀ (arms : List (MatchPattern × Expr)) (rc : List Instr),
    emitArms env arms = .ok rc →
    (∀ a ∈ arms, ∃ w, interp env a.2 = .ok w) →
    ∀ (v : InterpValue) (pre post : List Instr) (stack : List InterpValue),
    ((∀ a ∈ arms, patternMatches a.1 v = false) →
      ∃ k, ∀ f, run (k + f) (pre ++ rc ++ post) pre.length (v :: stack) =
        .failed v) ∧
    (∀ p b, arms.find? (fun a => patternMatches a.1 v) = some (p, b) →
      ∀ w, interp env b = .ok w →
      ∃ k, ∀ f, run (k + f) (pre ++ rc ++ post) pre.length (v :: stack) =
        run f (pre ++ rc ++ post) (pre.length + rc.length) (w :: stack)) := by
  intro arms
  induction arms with
  | nil =>
    intro rc h hb v pre post stack
    simp only [emitArms, Except.ok.injEq] at h
    subst h
    constructor
    · intro _
      refine ⟨1, fun f => ?_⟩
      have hf : (pre ++ [Instr.fail, Instr.jumpDest] ++ post)[pre.length]? =
          some .fail := by
        rw [List.append_assoc, getElem?_append_at pre _ pre.length 0 (by omega)]
        simp
      rw [show (1 : Nat) + f = f + 1 from by omega, step_fail hf f (v :: stack)]
      rfl
    · intro p b hfind
      simp at hfind
  | cons hd rest ih =>
    intro rc h hb v pre post stack
    obtain ⟨p, b⟩ := hd
    cases hbc : emit env b with
    | error m => simp [emitArms, hbc, Bind.bind, Except.bind] at h
    | ok bc =>
    cases hrc : emitArms env rest with
    | error m => simp [emitArms, hbc, hrc, Bind.bind, Except.bind] at h
    | ok rc' =>
    simp only [emitArms, hbc, hrc, Bind.bind, Except.bind, Pure.pure,
      Except.pure, Except.ok.injEq] at h
    subst h
    have hbRest : ∀ a ∈ rest, ∃ w, interp env a.2 = .ok w :=
      fun a ha => hb a (List.mem_cons_of_mem _ ha)
    have IH := ih rc' hrc hbRest v
      (pre ++ [Instr.dup, Instr.matchArm p, Instr.unop .invert,
        Instr.jumpRelIf (bc.length + 3), Instr.pop] ++ bc ++
        [Instr.jumpRel (rc'.length + 1), Instr.jumpDest]) post stack
    simp only [List.append_assoc, List.cons_append, List.singleton_append,
      List.nil_append, List.length_append, List.length_cons,
      List.length_nil] at IH
    simp only [List.append_assoc, List.cons_append, List.singleton_append,
      List.nil_append, List.length_append, List.length_cons, List.length_nil]
    constructor
    · intro hno
      have hpv : patternMatches p v = false := hno (p, b) (by simp)
      have hnoRest : ∀ a ∈ rest, patternMatches a.1 v = false :=
        fun a ha => hno a (by simp [ha])
      obtain ⟨kr, HR⟩ := IH.1 hnoRest
      refine ⟨5 + kr, fun f => ?_⟩
      refine ((run_bridge (arm_step_mismatch env p bc rc' pre post stack v hpv
          (kr + f)) rfl ?_ rfl rfl rfl).trans
        ((run_congr _ _ rfl ?_).trans (HR f))) <;> omega
    · intro p₀ b₀ hfind w hw
      cases hpv : patternMatches p v with
      | true =>
        rw [List.find?_cons_of_pos _ (by simpa using hpv)] at hfind
        simp only [Option.some.injEq, Prod.mk.injEq] at hfind
        obtain ⟨hp₀, hb₀⟩ := hfind
        subst hp₀
        subst hb₀
        obtain ⟨hlen, hlast⟩ := emitArms_last env rest rc' hrc
        obtain ⟨ka, HA⟩ := arm_step_match env p b bc rc' pre post stack v w
          hbc hpv hw hlen hlast
        refine ⟨ka, fun f => ?_⟩
        refine (HA f).trans (run_congr _ _ rfl ?_)
        omega
      | false =>
        rw [List.find?_cons_of_neg _ (by simpa using hpv)] at hfind
        obtain ⟨kr, HR⟩ := IH.2 p₀ b₀ hfind w hw
        refine ⟨5 + kr, fun f => ?_⟩
        refine ((run_bridge (arm_step_mismatch env p bc rc' pre post stack v hpv
            (kr + f)) rfl ?_ rfl rfl rfl).trans
          ((run_congr _ _ rfl ?_).trans
            ((HR f).trans (run_congr _ _ rfl ?_)))) <;> omega

end Dslx

/-- C6: the emitter lowers `match` to, per arm, duplicate-scrutinee,
compare-against-arm-pattern (`match_arm`), invert, branch-if-mismatch,
pop-on-match, arm body, and an unconditional jump past the remaining arms,
followed by a terminal `fail` instruction carrying the unmatched scrutinee
as diagnostic payload (the definitions `emitArms`/`emitMatch`); at runtime
the `fail` executes — the VM ends `failed` with the scrutinee as payload —
if and only if no arm matches the scrutinee: when no pattern matches the VM
fails with the scrutinee, and when some arm matches the VM instead completes
with the first matching arm's body value, never falling off the end. -/
theorem match_lowering_fail_iff (env : Dslx.Env) (scrut : Dslx.Expr)
    (arms : List (Dslx.MatchPattern × Dslx.Expr)) (code : List Dslx.Instr)
    (v : Dslx.InterpValue)
    (hm : Dslx.emitMatch env scrut arms = .ok code)
    (hs : Dslx.interp env scrut = .ok v)
    (hb : ∀ a ∈ arms, ∃ w, Dslx.interp env a.2 = .ok w) :
    ((∀ a ∈ arms, Dslx.patternMatches a.1 v = false) →
      ∃ k, ∀ f, Dslx.run (k + f) code 0 [] = .failed v) ∧
    (∀ p b, arms.find? (fun a => Dslx.patternMatches a.1 v) = some (p, b) →
      ∀ w, Dslx.interp env b = .ok w →
      ∃ k, ∀ f, Dslx.run (k + f) code 0 [] = .completed [w]) := by
  cases hsc : Dslx.emit env scrut with
  | error m => simp [Dslx.emitMatch, hsc, Bind.bind, Except.bind] at hm
  | ok sc =>
  cases hrc : Dslx.emitArms env arms with
  | error m => simp [Dslx.emitMatch, hsc, hrc, Bind.bind, Except.bind] at hm
  | ok rc =>
  simp only [Dslx.emitMatch, hsc, hrc, Bind.bind, Except.bind, Pure.pure,
    Except.pure, Except.ok.injEq] at hm
  subst hm
  obtain ⟨ks, S⟩ := Dslx.emit_sim env scrut sc v hsc hs [] rc []
  simp only [List.nil_append, List.append_nil, List.length_nil,
    Nat.zero_add] at S
  have EA := Dslx.emitArms_sim env arms rc hrc hb v sc [] []
  simp only [List.append_nil] at EA
  constructor
  · intro hno
    obtain ⟨ka, HA⟩ := EA.1 hno
    refine ⟨ks + ka, fun f => ?_⟩
    exact ((Dslx.run_congr _ _ (by omega) rfl).trans (S (ka + f))).trans (HA f)
  · intro p b hfind w hw
    obtain ⟨ka, HA⟩ := EA.2 p b hfind w hw
    refine ⟨ks + ka + 1, fun f => ?_⟩
    calc Dslx.run (ks + ka + 1 + f) (sc ++ rc) 0 [] =
        Dslx.run (ka + (1 + f)) (sc ++ rc) sc.length [v] :=
          (Dslx.run_congr _ _ (by omega) rfl).trans (S (ka + (1 + f)))
      _ = Dslx.run (1 + f) (sc ++ rc) (sc.length + rc.length) [w] := HA (1 + f)
      _ = .completed [w] := by
          rw [show sc.length + rc.length = (sc ++ rc).length from by simp,
            show (1 : Nat) + f = f + 1 from by omega]
          exact Dslx.run_completed f (sc ++ rc) [w]

/-- Witness for C6 at the `MatchSimpleArms` scenario: scrutinee `x = u32:77`
matches neither `u32:42` nor `u32:64`, so the wildcard arm `x + u32:1` runs
and the VM completes with `u32:78` (and the same theorem instance also gives
the fail characterization). -/
theorem match_lowering_fail_iff_witness :
    Dslx.interp [("x", ⟨false, 32, 77⟩)] (.nameRef "x") =
      .ok ⟨false, 32, 77⟩ ∧
    (∃ code, Dslx.emitMatch [("x", ⟨false, 32, 77⟩)] (.nameRef "x")
        [(.value ⟨false, 32, 42⟩, .number ⟨false, 32, 64⟩),
         (.value ⟨false, 32, 64⟩, .number ⟨false, 32, 42⟩),
         (.wildcard, .binop .add (.nameRef "x") (.number ⟨false, 32, 1⟩))] =
        .ok code ∧
      ∃ k, ∀ f, Dslx.run (k + f) code 0 [] =
        .completed [⟨false, 32, 78⟩]) :=
  ⟨rfl,
   ⟨_, rfl,
    (match_lowering_fail_iff [("x", ⟨false, 32, 77⟩)] (.nameRef "x")
        [(.value ⟨false, 32, 42⟩, .number ⟨false, 32, 64⟩),
         (.value ⟨false, 32, 64⟩, .number ⟨false, 32, 42⟩),
         (.wildcard, .binop .add (.nameRef "x") (.number ⟨false, 32, 1⟩))]
        _ ⟨false, 32, 77⟩ rfl rfl
        (by intro a ha
            simp only [List.mem_cons, List.not_mem_nil, or_false] at ha
            rcases ha with h | h | h <;> subst h <;> exact ⟨_, rfl⟩)).2
      .wildcard (.binop .add (.nameRef "x") (.number ⟨false, 32, 1⟩)) rfl
      ⟨false, 32, 78⟩ rfl⟩⟩

/-! ## Section: `ResolveDim` (claim C4)

The `ResolveDim` implementation is in `src/xls/dslx/lsp/language_server_adapter.h`
(second embedded document, `ir_conversion_utils.cc`):

```
while (holds_alternative<OwnedParametric>(dim.value())) {
  evaluated = original.Evaluate(ToParametricEnv(bindings));
  dim = ConcreteTypeDim(std::move(evaluated));
}
return dim;
```

`ParametricExpression::Evaluate` itself is not among the visible sources; it
is modelled from its use here: its return type `Evaluated` is a plain
variant of value-or-expression (no error channel), evaluation substitutes
bound symbols and folds fully-concrete operators, and an unbound symbol
evaluates to itself (a clone).  The while-loop is embedded with fuel: `none`
means the loop is still running after that many iterations. -/

namespace TypeDim

/-- Modelled from the spec: a `ParametricExpression` — a symbolic arithmetic
expression over parametric names (symbols, constants, sums, products). -/
inductive ParametricExpr where
  | symbol (s : String)
  | constant (v : Nat)
  | add (l r : ParametricExpr)
  | mul (l r : ParametricExpr)
deriving DecidableEq, Repr

/-- `ParametricExpression::Evaluated`: an `InterpValue` or a still-symbolic
expression. -/
inductive Evaluated where
  | value (v : Nat)
  | expr (e : ParametricExpr)
deriving DecidableEq, Repr

/-- `ToParametricEnv(bindings)`: parametric name to concrete value. -/
abbrev PEnv := List (String × Nat)

/-- Environment lookup. -/
def lookupP (env : PEnv) (s : String) : Option Nat :=
  (env.find? (fun p => p.1 = s)).map (·.2)

/-- Turn an `Evaluated` back into an expression (for partial folding). -/
def Evaluated.toExpr : Evaluated → ParametricExpr
  | .value v => .constant v
  | .expr e => e

/-- Modelled from the spec: `ParametricExpression::Evaluate` — substitute
bound symbols, fold operators whose operands are both concrete, and return
an unbound symbol (and any expression containing one) unchanged/partially
folded.  There is no error channel in the return type. -/
def evalParametric (env : PEnv) : ParametricExpr → Evaluated
  | .symbol s =>
    match lookupP env s with
    | some v => .value v
    | none => .expr (.symbol s)
  | .constant v => .value v
  | .add l r =>
    match evalParametric env l, evalParametric env r with
    | .value a, .value b => .value (a + b)
    | ea, eb => .expr (.add ea.toExpr eb.toExpr)
  | .mul l r =>
    match evalParametric env l, evalParametric env r with
    | .value a, .value b => .value (a * b)
    | ea, eb => .expr (.mul ea.toExpr eb.toExpr)

/-- `ConcreteTypeDim`: a resolved value or an owned parametric expression. -/
inductive ConcreteTypeDim where
  | value (v : Nat)
  | parametric (e : ParametricExpr)
deriving DecidableEq, Repr

/-- The `ResolveDim` while-loop, embedded with fuel: each loop iteration
performs one `Evaluate`; `none` means the loop has not finished within the
given number of iterations. -/
def resolveDimFuel (env : PEnv) : Nat → ConcreteTypeDim → Option ConcreteTypeDim
  | _, .value v => some (.value v)
  | 0, .parametric _ => none
  | n + 1, .parametric e =>
    resolveDimFuel env n
      (match evalParametric env e with
       | .value v => .value v
       | .expr e' => .parametric e')

/-- Free parametric symbols of an expression. -/
def freeSymsE : ParametricExpr → List String
  | .symbol s => [s]
  | .constant _ => []
  | .add l r => freeSymsE l ++ freeSymsE r
  | .mul l r => freeSymsE l ++ freeSymsE r

/-- Free parametric symbols of a dimension. -/
def freeSymsDim : ConcreteTypeDim → List String
  | .value _ => []
  | .parametric e => freeSymsE e

/-- If every free symbol is bound, one `Evaluate` produces a concrete value. -/
theorem evalParametric_value_of_bound (env : PEnv) :
    ∀ e : ParametricExpr, (∀ s ∈ freeSymsE e, (lookupP env s).isSome) →
    ∃ v, evalParametric env e = .value v := by
  intro e
  induction e with
  | symbol s =>
    intro h
    have := h s (by simp [freeSymsE])
    rw [Option.isSome_iff_exists] at this
    obtain ⟨v, hv⟩ := this
    exact ⟨v, by simp [evalParametric, hv]⟩
  | constant v => exact fun _ => ⟨v, rfl⟩
  | add l r ihl ihr =>
    intro h
    obtain ⟨a, ha⟩ := ihl fun s hs => h s (by simp [freeSymsE, hs])
    obtain ⟨b, hb⟩ := ihr fun s hs => h s (by simp [freeSymsE, hs])
    exact ⟨a + b, by simp [evalParametric, ha, hb]⟩
  | mul l r ihl ihr =>
    intro h
    obtain ⟨a, ha⟩ := ihl fun s hs => h s (by simp [freeSymsE, hs])
    obtain ⟨b, hb⟩ := ihr fun s hs => h s (by simp [freeSymsE, hs])
    exact ⟨a * b, by simp [evalParametric, ha, hb]⟩

/-- If some free symbol is unbound, `Evaluate` returns a still-symbolic
expression that again contains an unbound free symbol. -/
theorem evalParametric_expr_of_unbound (env : PEnv) :
    ∀ e : ParametricExpr, (∃ s ∈ freeSymsE e, lookupP env s = none) →
    ∃ e', evalParametric env e = .expr e' ∧
      ∃ s ∈ freeSymsE e', lookupP env s = none := by
  intro e
  induction e with
  | symbol s =>
    intro h
    obtain ⟨s', hs', hnone⟩ := h
    simp only [freeSymsE, List.mem_singleton] at hs'
    subst hs'
    exact ⟨.symbol s', by simp [evalParametric, hnone],
      s', by simp [freeSymsE], hnone⟩
  | constant v =>
    intro h
    simp [freeSymsE] at h
  | add l r ihl ihr =>
    intro h
    obtain ⟨s, hs, hnone⟩ := h
    simp only [freeSymsE, List.mem_append] at hs
    cases hs with
    | inl hsl =>
      obtain ⟨e', he', s', hs', hnone'⟩ := ihl ⟨s, hsl, hnone⟩
      refine ⟨.add e' (evalParametric env r).toExpr, ?_, s', ?_, hnone'⟩
      · cases hr : evalParametric env r <;>
          simp [evalParametric, he', hr, Evaluated.toExpr]
      · simp [freeSymsE, Evaluated.toExpr, hs']
    | inr hsr =>
      obtain ⟨e', he', s', hs', hnone'⟩ := ihr ⟨s, hsr, hnone⟩
      refine ⟨.add (evalParametric env l).toExpr e', ?_, s', ?_, hnone'⟩
      · cases hl : evalParametric env l <;>
          simp [evalParametric, he', hl, Evaluated.toExpr]
      · simp [freeSymsE, Evaluated.toExpr, hs']
  | mul l r ihl ihr =>
    intro h
    obtain ⟨s, hs, hnone⟩ := h
    simp only [freeSymsE, List.mem_append] at hs
    cases hs with
    | inl hsl =>
      obtain ⟨e', he', s', hs', hnone'⟩ := ihl ⟨s, hsl, hnone⟩
      refine ⟨.mul e' (evalParametric env r).toExpr, ?_, s', ?_, hnone'⟩
      · cases hr : evalParametric env r <;>
          simp [evalParametric, he', hr, Evaluated.toExpr]
      · simp [freeSymsE, Evaluated.toExpr, hs']
    | inr hsr =>
      obtain ⟨e', he', s', hs', hnone'⟩ := ihr ⟨s, hsr, hnone⟩
      refine ⟨.mul (evalParametric env l).toExpr e', ?_, s', ?_, hnone'⟩
      · cases hl : evalParametric env l <;>
          simp [evalParametric, he', hl, Evaluated.toExpr]
      · simp [freeSymsE, Evaluated.toExpr, hs']

/-- With an unbound free symbol the `ResolveDim` loop never finishes: every
iteration produces another still-symbolic dimension. -/
theorem resolveDimFuel_none_of_unbound (env : PEnv) :
    ∀ (n : Nat) (e : ParametricExpr),
    (∃ s ∈ freeSymsE e, lookupP env s = none) →
    resolveDimFuel env n (.parametric e) = none := by
  intro n
  induction n with
  | zero => intro e _; rfl
  | succ n ih =>
    intro e h
    obtain ⟨e', he', h'⟩ := evalParametric_expr_of_unbound env e h
    simp only [resolveDimFuel, he']
    exact ih e' h'

end TypeDim

/-- C4 counterexample: the claim "ResolveDim terminates for every input
dimension and environment" is false at the concrete input
`dim = ConcreteTypeDim(parametric symbol N)`, `bindings = {}`: the while
loop re-evaluates the unchanged symbolic dimension forever (no iteration
count suffices), and no cycle error is produced — `ResolveDim`'s loop has
no detection at all and `ParametricExpression::Evaluate` has no error
channel. -/
theorem resolveDim_counterexample :
    ¬ ∃ (n : Nat) (r : TypeDim.ConcreteTypeDim),
      TypeDim.resolveDimFuel [] n
        (.parametric (.symbol "N")) = some r := by
  rintro ⟨n, r, hr⟩
  rw [TypeDim.resolveDimFuel_none_of_unbound [] n (.symbol "N")
    ⟨"N", by simp [TypeDim.freeSymsE], rfl⟩] at hr
  exact Option.noConfusion hr

/-- C4 (amended): the `ResolveDim` loop terminates if and only if every
parametric symbol free in the dimension is bound in the `ParametricEnv`;
when they all are, a single evaluation already yields a concrete integer
dimension.  A dimension with an unbound symbol makes the loop re-evaluate
forever — there is no cycle detection and no cycle error in `ResolveDim`. -/
theorem resolveDim_terminates_iff_bound (env : TypeDim.PEnv)
    (dim : TypeDim.ConcreteTypeDim) :
    ((∃ n r, TypeDim.resolveDimFuel env n dim = some r) ↔
      (∀ s ∈ TypeDim.freeSymsDim dim, (TypeDim.lookupP env s).isSome)) ∧
    ((∀ s ∈ TypeDim.freeSymsDim dim, (TypeDim.lookupP env s).isSome) →
      ∃ v, TypeDim.resolveDimFuel env 2 dim = some (.value v)) := by
  have main : (∀ s ∈ TypeDim.freeSymsDim dim, (TypeDim.lookupP env s).isSome) →
      ∃ v, TypeDim.resolveDimFuel env 2 dim = some (.value v) := by
    intro h
    cases dim with
    | value v => exact ⟨v, rfl⟩
    | parametric e =>
      obtain ⟨v, hv⟩ := TypeDim.evalParametric_value_of_bound env e h
      exact ⟨v, by simp [TypeDim.resolveDimFuel, hv]⟩
  refine ⟨⟨?_, fun h => ?_⟩, main⟩
  · intro ⟨n, r, hr⟩
    by_contra hance
    push_neg at hance
    obtain ⟨s, hs, hnone⟩ := hance
    cases dim with
    | value v => simp [TypeDim.freeSymsDim] at hs
    | parametric e =>
      rw [TypeDim.resolveDimFuel_none_of_unbound env n e
        ⟨s, hs, by simpa using hnone⟩] at hr
      exact Option.noConfusion hr
  · obtain ⟨v, hv⟩ := main h
    exact ⟨2, .value v, hv⟩

/-- Witness for C4's amended statement at a concrete input: with `N` bound
to 32, the dimension `parametric N` resolves (to the concrete integer 32). -/
theorem resolveDim_terminates_iff_bound_witness :
    (∃ n r, TypeDim.resolveDimFuel [("N", 32)] n
      (.parametric (.symbol "N")) = some r) ∧
    (∃ v, TypeDim.resolveDimFuel [("N", 32)] 2
      (.parametric (.symbol "N")) = some (.value v)) :=
  ⟨(resolveDim_terminates_iff_bound [("N", 32)]
      (.parametric (.symbol "N"))).1.mpr (by decide),
   (resolveDim_terminates_iff_bound [("N", 32)]
      (.parametric (.symbol "N"))).2 (by decide)⟩

/-! ## Section: scanner, parser and pretty-printer fragment (claims C2, C3, C8)

The scanner and parser implementations are not among the visible sources
(only `parser_test.cc` in `src/unnamed/part_000` is), so this section is
modelled from the spec, pinned by the exact behaviors the parser tests
assert: the round-trip tests (`ModuleWithTypeAlias`, `ParametricInvocation`,
`ParametricColonRefInvocation`), the chained-comparison error tests
(`ChainedEqualsComparisonError`, `ChainedLtComparisonError`,
`ChainedLtGtComparisonError` — the last one fails with
"Expected a '(' after parametrics for function invocation." because `x<y>`
commits to a parametric invocation), and `DetectsDuplicateFailLabels`.

The modelled grammar fragment: modules of type aliases and zero-argument
functions; expressions built from name references, typed number literals
(`u32:42`), colon-references (`Enum::VALUE`), `+`, the non-associative
comparison operators, invocations with optional parametrics
(`f<u32:2>(...)`), and `fail!("label", expr)`. -/

namespace Frontend

/-- Scanner token kinds. -/
inductive TokKind where
  | ident (s : String)
  | number (n : Nat)
  | str (s : String)
  | kwType
  | kwFn
  | oParen | cParen
  | oBrace | cBrace
  | ltTok | gtTok | leTok | geTok | eqEqTok | neTok
  | plusTok | eqTok | colonTok | colonColonTok | semiTok | commaTok
  | bangTok | arrowTok
deriving DecidableEq, Repr

/-- Source span of a token: 0-based line, 0-based start column, exclusive
limit column (the scanner's tokens never span lines). -/
structure Span where
  line : Nat
  colStart : Nat
  colLimit : Nat
deriving DecidableEq, Repr

/-- A token with its span. -/
structure Token where
  kind : TokKind
  span : Span
deriving DecidableEq, Repr

/-- Parse errors carry the offending span and a human-readable message. -/
structure PError where
  span : Span
  msg : String
deriving DecidableEq, Repr

/-- Decimal digit value (scanner side). -/
def charVal (c : Char) : Nat :=
  if c = '0' then 0 else if c = '1' then 1 else if c = '2' then 2
  else if c = '3' then 3 else if c = '4' then 4 else if c = '5' then 5
  else if c = '6' then 6 else if c = '7' then 7 else if c = '8' then 8
  else 9

/-- Decimal digit character (printer side). -/
def digitChar (d : Nat) : Char :=
  if d = 0 then '0' else if d = 1 then '1' else if d = 2 then '2'
  else if d = 3 then '3' else if d = 4 then '4' else if d = 5 then '5'
  else if d = 6 then '6' else if d = 7 then '7' else if d = 8 then '8'
  else '9'

/-- Digit string of a natural (most significant first). -/
def natDigitsAux : Nat → Nat → List Char
  | 0, _ => []
  | fuel + 1, n =>
    if n < 10 then [digitChar n]
    else natDigitsAux fuel (n / 10) ++ [digitChar (n % 10)]

/-- Decimal rendering of a natural. -/
def natChars (n : Nat) : List Char := natDigitsAux (n + 1) n

/-- Decimal value of a digit string. -/
def charsToNat (cs : List Char) : Nat :=
  cs.foldl (fun acc c => acc * 10 + charVal c) 0

/-- Identifier-continuation characters. -/
def isIdentChar (c : Char) : Bool := c.isAlphanum || c = '_'

/-- Modelled from the spec: the scanner.  Tokenizes with line/column
tracking; fuel is the remaining character count. -/
def scanAux : Nat → List Char → Nat → Nat → Except String (List Token)
  | _, [], _, _ => .ok []
  | 0, _ :: _, _, _ => .error "scanner out of fuel"
  | fuel + 1, c :: rest, line, col =>
    if c = ' ' then scanAux fuel rest line (col + 1)
    else if c = '\n' then scanAux fuel rest (line + 1) 0
    else if c.isAlpha || c = '_' then
      let tail := rest.takeWhile isIdentChar
      let s := String.mk (c :: tail)
      let len := 1 + tail.length
      let kind := if s = "type" then TokKind.kwType
        else if s = "fn" then TokKind.kwFn
        else TokKind.ident s
      (scanAux fuel (rest.dropWhile isIdentChar) line (col + len)).map
        (⟨kind, ⟨line, col, col + len⟩⟩ :: ·)
    else if c.isDigit then
      let tail := rest.takeWhile Char.isDigit
      let len := 1 + tail.length
      (scanAux fuel (rest.dropWhile Char.isDigit) line (col + len)).map
        (⟨.number (charsToNat (c :: tail)), ⟨line, col, col + len⟩⟩ :: ·)
    else if c = '"' then
      let tail := rest.takeWhile (fun c => !(c = '"'))
      match rest.dropWhile (fun c => !(c = '"')) with
      | '"' :: r2 =>
        let len := tail.length + 2
        (scanAux fuel r2 line (col + len)).map
          (⟨.str (String.mk tail), ⟨line, col, col + len⟩⟩ :: ·)
      | _ => .error "unterminated string literal"
    else if c = '=' then
      match rest with
      | '=' :: r2 => (scanAux fuel r2 line (col + 2)).map
          (⟨.eqEqTok, ⟨line, col, col + 2⟩⟩ :: ·)
      | _ => (scanAux fuel rest line (col + 1)).map
          (⟨.eqTok, ⟨line, col, col + 1⟩⟩ :: ·)
    else if c = '!' then
      match rest with
      | '=' :: r2 => (scanAux fuel r2 line (col + 2)).map
          (⟨.neTok, ⟨line, col, col + 2⟩⟩ :: ·)
      | _ => (scanAux fuel rest line (col + 1)).map
          (⟨.bangTok, ⟨line, col, col + 1⟩⟩ :: ·)
    else if c = '<' then
      match rest with
      | '=' :: r2 => (scanAux fuel r2 line (col + 2)).map
          (⟨.leTok, ⟨line, col, col + 2⟩⟩ :: ·)
      | _ => (scanAux fuel rest line (col + 1)).map
          (⟨.ltTok, ⟨line, col, col + 1⟩⟩ :: ·)
    else if c = '>' then
      match rest with
      | '=' :: r2 => (scanAux fuel r2 line (col + 2)).map
          (⟨.geTok, ⟨line, col, col + 2⟩⟩ :: ·)
      | _ => (scanAux fuel rest line (col + 1)).map
          (⟨.gtTok, ⟨line, col, col + 1⟩⟩ :: ·)
    else if c = ':' then
      match rest with
      | ':' :: r2 => (scanAux fuel r2 line (col + 2)).map
          (⟨.colonColonTok, ⟨line, col, col + 2⟩⟩ :: ·)
      | _ => (scanAux fuel rest line (col + 1)).map
          (⟨.colonTok, ⟨line, col, col + 1⟩⟩ :: ·)
    else if c = '-' then
      match rest with
      | '>' :: r2 => (scanAux fuel r2 line (col + 2)).map
          (⟨.arrowTok, ⟨line, col, col + 2⟩⟩ :: ·)
      | _ => .error "unexpected character"
    else
      let single : Option TokKind :=
        if c = '(' then some .oParen
        else if c = ')' then some .cParen
        else if c = Char.ofNat 123 then some .oBrace
        else if c = Char.ofNat 125 then some .cBrace
        else if c = '+' then some .plusTok
        else if c = ';' then some .semiTok
        else if c = ',' then some .commaTok
        else none
      match single with
      | some k => (scanAux fuel rest line (col + 1)).map
          (⟨k, ⟨line, col, col + 1⟩⟩ :: ·)
      | none => .error "unexpected character"

/-- Tokenize a whole source string. -/
def scan (src : String) : Except String (List Token) :=
  scanAux src.toList.length src.toList 0 0

end Frontend

namespace Frontend

/-- Type annotations of the fragment: the builtin bits types `uN` / `sN`. -/
inductive TypeAnn where
  | bits (signed : Bool) (width : Nat)
deriving DecidableEq, Repr

/-- Binary operators of the fragment.  The comparison operators are
non-associative in the grammar. -/
inductive BinOp where
  | add | beq | bne | blt | bgt | ble | bge
deriving DecidableEq, Repr

/-- Is a binary operator a comparison? -/
def BinOp.isCmp : BinOp → Bool
  | .beq | .bne | .blt | .bgt | .ble | .bge => true
  | .add => false

/-- Expressions of the modelled fragment. -/
inductive PExpr where
  | nameRef (s : String)
  | number (t : TypeAnn) (v : Nat)
  | colonRef (subject attr : String)
  | binop (op : BinOp) (l r : PExpr)
  | invocation (callee : String) (parametrics : List PExpr) (args : List PExpr)
  | failBang (label : String) (payload : PExpr)

/-- Module members of the fragment. -/
inductive Member where
  | typeAlias (name : String) (typ : TypeAnn)
  | fnDef (name : String) (ret : TypeAnn) (body : PExpr)

/-- A module is a list of members. -/
abbrev PModule := List Member

/-- Name of a bits type (`u32`, `s7`, ...). -/
def typeName (t : TypeAnn) : String :=
  match t with
  | .bits signed w => (if signed then "s" else "u") ++ String.mk (natChars w)

/-- Recognize a bits type name (`u`/`s` followed by a nonempty digit
string). -/
def parseTypeName (s : String) : Option TypeAnn :=
  match s.toList with
  | [] => none
  | c :: rest =>
    if (c = 'u' ∨ c = 's') ∧ rest ≠ [] ∧ rest.all Char.isDigit then
      some (.bits (c = 's') (charsToNat rest))
    else none

/-- Operator rendering. -/
def opStr (op : BinOp) : String :=
  match op with
  | .add => "+"
  | .beq => "=="
  | .bne => "!="
  | .blt => "<"
  | .bgt => ">"
  | .ble => "<="
  | .bge => ">="

mutual

/-- Pretty-printing of expressions, mirroring the AST `ToString` format the
round-trip tests assert (flat binary operators, `, `-separated lists,
`f<a, b>(c)` parametric invocations). -/
def printExpr : PExpr → String
  | .nameRef s => s
  | .number t v => typeName t ++ ":" ++ String.mk (natChars v)
  | .colonRef a b => a ++ "::" ++ b
  | .binop op l r => printExpr l ++ " " ++ opStr op ++ " " ++ printExpr r
  | .invocation c ps args =>
    c ++ (match ps with
          | [] => ""
          | p :: ps' => "<" ++ printExpr p ++ printExprList ps' ++ ">") ++
    "(" ++ (match args with
            | [] => ""
            | a :: args' => printExpr a ++ printExprList args') ++ ")"
  | .failBang lbl p => "fail!(\"" ++ lbl ++ "\", " ++ printExpr p ++ ")"

def printExprList : List PExpr → String
  | [] => ""
  | e :: es => ", " ++ printExpr e ++ printExprList es

end

/-- Pretty-printing of members. -/
def printMember : Member → String
  | .typeAlias n t => "type " ++ n ++ " = " ++ typeName t ++ ";"
  | .fnDef n ret body =>
    "fn " ++ n ++ "() -> " ++ typeName ret ++ " \x7b\n    " ++
      printExpr body ++ "\n\x7d"

/-- Pretty-printing of modules (members separated by newlines). -/
def printModule (m : PModule) : String :=
  match m with
  | [] => ""
  | mem :: rest => rest.foldl (fun acc x => acc ++ "\n" ++ printMember x)
      (printMember mem)

/-- Token of a binary operator. -/
def opKind (op : BinOp) : TokKind :=
  match op with
  | .add => .plusTok
  | .beq => .eqEqTok
  | .bne => .neTok
  | .blt => .ltTok
  | .bgt => .gtTok
  | .ble => .leTok
  | .bge => .geTok

mutual

/-- Token-kind rendering of expressions: the tokenization of `printExpr`
(whitespace normalized away). -/
def exprKinds : PExpr → List TokKind
  | .nameRef s => [.ident s]
  | .number t v => [.ident (typeName t), .colonTok, .number v]
  | .colonRef a b => [.ident a, .colonColonTok, .ident b]
  | .binop op l r => exprKinds l ++ [opKind op] ++ exprKinds r
  | .invocation c ps args =>
    [TokKind.ident c] ++
    (match ps with
     | [] => []
     | p :: ps' => [TokKind.ltTok] ++ exprKinds p ++ exprKindsList ps' ++
        [TokKind.gtTok]) ++
    [TokKind.oParen] ++
    (match args with
     | [] => []
     | a :: args' => exprKinds a ++ exprKindsList args') ++ [TokKind.cParen]
  | .failBang lbl p =>
    [.ident "fail", .bangTok, .oParen, .str lbl, .commaTok] ++ exprKinds p ++
      [.cParen]

def exprKindsList : List PExpr → List TokKind
  | [] => []
  | e :: es => [TokKind.commaTok] ++ exprKinds e ++ exprKindsList es

end

/-- Token-kind rendering of members. -/
def memberKinds : Member → List TokKind
  | .typeAlias n t => [.kwType, .ident n, .eqTok, .ident (typeName t), .semiTok]
  | .fnDef n ret body =>
    [.kwFn, .ident n, .oParen, .cParen, .arrowTok, .ident (typeName ret),
      .oBrace] ++ exprKinds body ++ [.cBrace]

/-- Token-kind rendering of modules. -/
def moduleKinds (m : PModule) : List TokKind :=
  (m.map memberKinds).flatten

/-- A kind with a dummy span, for token-level statements. -/
def mkT (k : TokKind) : Token := ⟨k, ⟨0, 0, 0⟩⟩

end Frontend

namespace Frontend

/-- The parser error message for chained comparisons (pinned by
`ChainedEqualsComparisonError` / `ChainedLtComparisonError`). -/
def chainMsg : String := "comparison operators cannot be chained"

/-- The parser error message when `name<parametrics>` is not followed by a
call (pinned by `ChainedLtGtComparisonError`). -/
def parenMsg : String := "Expected a '(' after parametrics for function invocation."

/-- The parse-time duplicate-fail-label message (pinned by
`DetectsDuplicateFailLabels`). -/
def dupLabelMsg : String := "A fail label must be unique"

/-- Comparison operator of a token, if any. -/
def cmpOpOf : TokKind → Option BinOp
  | .eqEqTok => some .beq
  | .neTok => some .bne
  | .ltTok => some .blt
  | .gtTok => some .bgt
  | .leTok => some .ble
  | .geTok => some .bge
  | _ => none

def dummySpan : Span := ⟨0, 0, 0⟩

/-- Parametric-list element: a name reference, typed number, or
colon-reference (anything else makes the parametric attempt fail, which
rolls the parser back to treating `<` as a comparison). -/
def parseParamElemK : List Token → Except PError (PExpr × List Token)
  | ⟨.ident s, sp⟩ :: rest =>
    match rest with
    | ⟨.colonTok, _⟩ :: ⟨.number n, _⟩ :: rest2 =>
      match parseTypeName s with
      | some ty => .ok (.number ty n, rest2)
      | none => .error ⟨sp, "invalid number type prefix in parametrics"⟩
    | ⟨.colonColonTok, _⟩ :: ⟨.ident attr, _⟩ :: rest2 =>
      .ok (.colonRef s attr, rest2)
    | _ => .ok (.nameRef s, rest)
  | t :: _ => .error ⟨t.span, "invalid parametric argument"⟩
  | [] => .error ⟨dummySpan, "expected parametric argument"⟩

mutual

/-- Modelled from the spec: the recursive-descent expression parser at the
comparison level.  Comparison operators are non-associative: after parsing
`a op b`, another comparison operator is the chained-comparison parse error
at that operator's span. -/
def parseExprK : Nat → List Token → Except PError (PExpr × List Token)
  | 0, _ => .error ⟨dummySpan, "parser out of fuel"⟩
  | fuel + 1, ts => do
    let (a, r) ← parseAddK fuel ts
    match r with
    | t :: rest =>
      match cmpOpOf t.kind with
      | some op => do
        let (b, r2) ← parseAddK fuel rest
        match r2 with
        | t2 :: _ =>
          match cmpOpOf t2.kind with
          | some _ => .error ⟨t2.span, chainMsg⟩
          | none => .ok (.binop op a b, r2)
        | [] => .ok (.binop op a b, [])
      | none => .ok (a, r)
    | [] => .ok (a, [])

/-- Addition level (left-associative `+` over terms). -/
def parseAddK : Nat → List Token → Except PError (PExpr × List Token)
  | 0, _ => .error ⟨dummySpan, "parser out of fuel"⟩
  | fuel + 1, ts => do
    let (t, r) ← parseTermK fuel ts
    parseAddLoopK fuel t r

/-- The `+`-chain loop. -/
def parseAddLoopK : Nat → PExpr → List Token → Except PError (PExpr × List Token)
  | 0, _, _ => .error ⟨dummySpan, "parser out of fuel"⟩
  | fuel + 1, acc, ts =>
    match ts with
    | ⟨.plusTok, _⟩ :: rest => do
      let (t, r) ← parseTermK fuel rest
      parseAddLoopK fuel (.binop .add acc t) r
    | _ => .ok (acc, ts)

/-- Terms: name references, typed numbers, colon-references, invocations
(with an attempted parametric list after `<` on a name — committing to
"expect a `(`" when the `<...>` parses, rolling back to a comparison
otherwise), and `fail!("label", expr)`. -/
def parseTermK : Nat → List Token → Except PError (PExpr × List Token)
  | 0, _ => .error ⟨dummySpan, "parser out of fuel"⟩
  | _ + 1, [] => .error ⟨dummySpan, "expected expression"⟩
  | fuel + 1, t :: rest =>
    match t.kind with
    | .ident s =>
      match rest with
      | [] => .ok (.nameRef s, [])
      | t2 :: rest2 =>
        match t2.kind with
        | .colonTok =>
          match parseTypeName s with
          | some ty =>
            match rest2 with
            | ⟨.number n, _⟩ :: rest3 => .ok (.number ty n, rest3)
            | _ => .error ⟨t2.span, "expected number after type prefix"⟩
          | none => .ok (.nameRef s, rest)
        | .colonColonTok =>
          match rest2 with
          | ⟨.ident attr, _⟩ :: rest3 => .ok (.colonRef s attr, rest3)
          | _ => .error ⟨t2.span, "expected name after ::"⟩
        | .bangTok =>
          if s = "fail" then
            match rest2 with
            | ⟨.oParen, _⟩ :: ⟨.str lbl, _⟩ :: ⟨.commaTok, _⟩ :: rest3 => do
              let (p, r) ← parseExprK fuel rest3
              match r with
              | ⟨.cParen, _⟩ :: r2 => .ok (.failBang lbl p, r2)
              | _ => .error ⟨t.span, "expected close paren in fail!"⟩
            | _ => .error ⟨t.span, "expected fail! call"⟩
          else .ok (.nameRef s, rest)
        | .ltTok =>
          match parseParamElemsK fuel rest2 with
          | .ok (ps, rest3) =>
            match rest3 with
            | ⟨.oParen, _⟩ :: rest4 => do
              let (args, r) ← parseArgsK fuel rest4
              .ok (.invocation s ps args, r)
            | t4 :: _ => .error ⟨t4.span, parenMsg⟩
            | [] => .error ⟨t.span, parenMsg⟩
          | .error _ => .ok (.nameRef s, rest)
        | .oParen => do
          let (args, r) ← parseArgsK fuel rest2
          .ok (.invocation s [] args, r)
        | _ => .ok (.nameRef s, rest)
    | _ => .error ⟨t.span, "expected expression"⟩

/-- Parametric list after `<`: elements separated by commas, closed by `>`
(consumed). -/
def parseParamElemsK : Nat → List Token → Except PError (List PExpr × List Token)
  | 0, _ => .error ⟨dummySpan, "parser out of fuel"⟩
  | fuel + 1, ts => do
    let (e, r) ← parseParamElemK ts
    match r with
    | ⟨.commaTok, _⟩ :: rest2 => do
      let (es, r2) ← parseParamElemsK fuel rest2
      .ok (e :: es, r2)
    | ⟨.gtTok, _⟩ :: rest2 => .ok ([e], rest2)
    | t :: _ => .error ⟨t.span, "expected comma or > in parametrics"⟩
    | [] => .error ⟨dummySpan, "expected comma or > in parametrics"⟩

/-- Argument list after `(`: expressions separated by commas until `)`
(consumed). -/
def parseArgsK : Nat → List Token → Except PError (List PExpr × List Token)
  | 0, _ => .error ⟨dummySpan, "parser out of fuel"⟩
  | fuel + 1, ts =>
    match ts with
    | ⟨.cParen, _⟩ :: rest => .ok ([], rest)
    | _ => parseArgsRestK fuel ts

/-- One or more comma-separated arguments, then `)` (consumed). -/
def parseArgsRestK : Nat → List Token → Except PError (List PExpr × List Token)
  | 0, _ => .error ⟨dummySpan, "parser out of fuel"⟩
  | fuel + 1, ts => do
    let (e, r) ← parseExprK fuel ts
    match r with
    | ⟨.commaTok, _⟩ :: rest2 => do
      let (es, r2) ← parseArgsRestK fuel rest2
      .ok (e :: es, r2)
    | ⟨.cParen, _⟩ :: rest2 => .ok ([e], rest2)
    | t :: _ => .error ⟨t.span, "expected comma or ) in argument list"⟩
    | [] => .error ⟨dummySpan, "expected comma or ) in argument list"⟩

end

/-- Module members: `type NAME = TYPE;` aliases and
`fn NAME() -> TYPE { BODY }` functions. -/
def parseMembersK : Nat → List Token → Except PError PModule
  | 0, _ => .error ⟨dummySpan, "parser out of fuel"⟩
  | _ + 1, [] => .ok []
  | fuel + 1, t :: rest =>
    match t.kind with
    | .kwType =>
      match rest with
      | ⟨.ident n, _⟩ :: ⟨.eqTok, _⟩ :: ⟨.ident tn, sp⟩ :: ⟨.semiTok, _⟩ :: rest4 =>
        match parseTypeName tn with
        | some ty => (parseMembersK fuel rest4).map (.typeAlias n ty :: ·)
        | none => .error ⟨sp, "expected type name"⟩
      | _ => .error ⟨t.span, "invalid type alias"⟩
    | .kwFn =>
      match rest with
      | ⟨.ident n, _⟩ :: ⟨.oParen, _⟩ :: ⟨.cParen, _⟩ :: ⟨.arrowTok, _⟩ ::
          ⟨.ident tn, sp⟩ :: ⟨.oBrace, _⟩ :: rest6 =>
        match parseTypeName tn with
        | some ty =>
          match parseExprK fuel rest6 with
          | .error e => .error e
          | .ok (body, r) =>
            match r with
            | ⟨.cBrace, _⟩ :: r2 =>
              (parseMembersK fuel r2).map (.fnDef n ty body :: ·)
            | _ => .error ⟨t.span, "expected closing brace"⟩
        | none => .error ⟨sp, "expected type name"⟩
      | _ => .error ⟨t.span, "invalid function"⟩
    | _ => .error ⟨t.span, "expected module member"⟩

mutual

/-- The `fail!` labels of an expression, in source order. -/
def failLabels : PExpr → List String
  | .nameRef _ | .number _ _ | .colonRef _ _ => []
  | .binop _ l r => failLabels l ++ failLabels r
  | .invocation _ ps args => failLabelsList ps ++ failLabelsList args
  | .failBang lbl p => lbl :: failLabels p

def failLabelsList : List PExpr → List String
  | [] => []
  | e :: es => failLabels e ++ failLabelsList es

end

/-- Does a list contain a duplicate? -/
def hasDup : List String → Bool
  | [] => false
  | x :: xs => xs.contains x || hasDup xs

/-- Does some function of the module carry duplicate fail labels? -/
def moduleHasDupLabel : PModule → Bool
  | [] => false
  | .typeAlias _ _ :: rest => moduleHasDupLabel rest
  | .fnDef _ _ body :: rest => hasDup (failLabels body) || moduleHasDupLabel rest

/-- Modelled from the spec: `ParseModule` — parse the members and enforce,
still at parse time, that the `fail!` labels within each function body are
unique. -/
def parseModuleK (fuel : Nat) (ts : List Token) : Except PError PModule :=
  match parseMembersK fuel ts with
  | .error e => .error e
  | .ok m =>
    if moduleHasDupLabel m then .error ⟨dummySpan, dupLabelMsg⟩ else .ok m

/-- String-level module parse: scan then parse. -/
def parseModuleStr (src : String) : Except String PModule :=
  match scan src with
  | .error e => .error e
  | .ok toks =>
    match parseModuleK (toks.length + 1) toks with
    | .error e => .error e.msg
    | .ok m => .ok m

/-- String-level expression parse (the `ParseExpr` helper of the tests);
returns the full `PError` so spans can be inspected. -/
def parseExprStr (src : String) : Except PError (PExpr × List Token) :=
  match scan src with
  | .error e => .error ⟨dummySpan, e⟩
  | .ok toks => parseExprK (toks.length + 1) toks

end Frontend

namespace Frontend

/-- Names that do not collide with the scanner's keywords. -/
def okName (s : String) : Bool := !(s = "type") && !(s = "fn")

mutual

/-- Well-formed terms of the printable fragment (the shapes `printExpr`
renders unambiguously). -/
def wfTerm : PExpr → Bool
  | .nameRef s => okName s
  | .number _ _ => true
  | .colonRef a b => okName a && okName b
  | .binop _ _ _ => false
  | .invocation c ps args => okName c && wfParamList ps && wfArgList args
  | .failBang _ p => wfExpr p

/-- Parametric-list elements are names, typed numbers or colon-refs. -/
def wfParamElem : PExpr → Bool
  | .nameRef s => okName s
  | .number _ _ => true
  | .colonRef a b => okName a && okName b
  | _ => false

def wfParamList : List PExpr → Bool
  | [] => true
  | e :: es => wfParamElem e && wfParamList es

def wfArgList : List PExpr → Bool
  | [] => true
  | e :: es => wfExpr e && wfArgList es

/-- Addition level: a single `+` of terms, or a term. -/
def wfAdd : PExpr → Bool
  | .binop .add l r => wfTerm l && wfTerm r
  | e => wfTerm e

/-- Expression level: a non-associative comparison of addition-level
operands (`==`, `!=`, `<=`, `>=`; `<`/`>` cannot round-trip — see C3), or
an addition-level expression. -/
def wfExpr : PExpr → Bool
  | .binop .beq l r => wfAdd l && wfAdd r
  | .binop .bne l r => wfAdd l && wfAdd r
  | .binop .ble l r => wfAdd l && wfAdd r
  | .binop .bge l r => wfAdd l && wfAdd r
  | e => wfAdd e

end

/-- Well-formed members. -/
def wfMember : Member → Bool
  | .typeAlias n _ => okName n
  | .fnDef n _ body => okName n && wfExpr body

/-- Well-formed modules. -/
def wfModule : PModule → Bool
  | [] => true
  | m :: rest => wfMember m && wfModule rest

mutual

def sizeE : PExpr → Nat
  | .nameRef _ => 1
  | .number _ _ => 1
  | .colonRef _ _ => 1
  | .binop _ l r => sizeE l + sizeE r + 1
  | .invocation _ ps args => sizeEL ps + sizeEL args + 1
  | .failBang _ p => sizeE p + 1

def sizeEL : List PExpr → Nat
  | [] => 1
  | e :: es => sizeE e + sizeEL es + 1

end

/-- Tokens a term may be followed by in a printed stream. -/
def safeFollow (ts : List Token) : Bool :=
  match ts with
  | [] => true
  | t :: _ =>
    match t.kind with
    | .plusTok | .eqEqTok | .neTok | .leTok | .geTok | .commaTok | .cParen
    | .cBrace => true
    | _ => false

/-- Tokens an addition-level expression may be followed by (no `+`). -/
def safeFollowAdd (ts : List Token) : Bool :=
  match ts with
  | [] => true
  | t :: _ =>
    match t.kind with
    | .eqEqTok | .neTok | .leTok | .geTok | .commaTok | .cParen | .cBrace => true
    | _ => false

/-- Tokens a full expression may be followed by (no comparisons either). -/
def safeFollowExpr (ts : List Token) : Bool :=
  match ts with
  | [] => true
  | t :: _ =>
    match t.kind with
    | .commaTok | .cParen | .cBrace => true
    | _ => false

theorem safeFollowAdd_safeFollow (ts : List Token) (h : safeFollowAdd ts = true) :
    safeFollow ts = true := by
  cases ts with
  | nil => rfl
  | cons t rest =>
    simp only [safeFollowAdd] at h
    simp only [safeFollow]
    cases t with
    | mk k sp => cases k <;> simp_all

theorem safeFollowExpr_safeFollowAdd (ts : List Token)
    (h : safeFollowExpr ts = true) : safeFollowAdd ts = true := by
  cases ts with
  | nil => rfl
  | cons t rest =>
    simp only [safeFollowExpr] at h
    simp only [safeFollowAdd]
    cases t with
    | mk k sp => cases k <;> simp_all

/-- A full expression's follow token is never a comparison operator. -/
theorem safeFollowExpr_no_cmp (t : Token) (ts : List Token)
    (h : safeFollowExpr (t :: ts) = true) : cmpOpOf t.kind = none := by
  simp only [safeFollowExpr] at h
  cases t with
  | mk k sp => cases k <;> simp_all [cmpOpOf]

/-- `cmpOpOf` inverts `opKind` on comparison operators. -/
theorem cmpOpOf_opKind (op : BinOp) (h : op.isCmp = true) :
    cmpOpOf (opKind op) = some op := by
  cases op <;> simp_all [BinOp.isCmp, opKind, cmpOpOf]

end Frontend

namespace Frontend

theorem charVal_digitChar (d : Nat) (h : d < 10) : charVal (digitChar d) = d := by
  interval_cases d <;> rfl

theorem digitChar_isDigit (d : Nat) : (digitChar d).isDigit = true := by
  unfold digitChar
  split_ifs <;> decide

theorem natDigitsAux_ne_nil (fuel n : Nat) :
    natDigitsAux (fuel + 1) n ≠ [] := by
  unfold natDigitsAux
  split
  · simp
  · simp

theorem natDigitsAux_all_digits : ∀ fuel n,
    (natDigitsAux fuel n).all Char.isDigit = true := by
  intro fuel
  induction fuel with
  | zero => intro n; rfl
  | succ f ih =>
    intro n
    unfold natDigitsAux
    split
    · simp [digitChar_isDigit]
    · simp [List.all_append, ih, digitChar_isDigit]

theorem charsToNat_natDigitsAux : ∀ fuel n, n ≤ fuel → ∀ acc,
    (natDigitsAux fuel n).foldl (fun acc c => acc * 10 + charVal c) acc =
      acc * 10 ^ (natDigitsAux fuel n).length + n := by
  intro fuel
  induction fuel with
  | zero =>
    intro n hn acc
    interval_cases n
    simp [natDigitsAux]
  | succ f ih =>
    intro n hn acc
    unfold natDigitsAux
    split
    · next h =>
      simp [List.foldl, charVal_digitChar n h]
    · next h =>
      push_neg at h
      have hdiv : n / 10 ≤ f := by omega
      rw [List.foldl_append]
      rw [ih (n / 10) hdiv acc]
      have hmod : n % 10 < 10 := Nat.mod_lt _ (by omega)
      simp only [List.foldl, charVal_digitChar (n % 10) hmod,
        List.length_append, List.length_cons, List.length_nil]
      have hdm : 10 * (n / 10) + n % 10 = n := Nat.div_add_mod n 10
      ring_nf
      omega

/-- Printing then reading a decimal numeral is the identity. -/
theorem charsToNat_natChars (n : Nat) : charsToNat (natChars n) = n := by
  have := charsToNat_natDigitsAux (n + 1) n (by omega) 0
  simpa [charsToNat, natChars] using this

theorem natChars_ne_nil (n : Nat) : natChars n ≠ [] :=
  natDigitsAux_ne_nil n n

theorem natChars_all_digits (n : Nat) : (natChars n).all Char.isDigit = true :=
  natDigitsAux_all_digits (n + 1) n

/-- `parseTypeName` inverts `typeName`. -/
theorem parseTypeName_typeName (t : TypeAnn) :
    parseTypeName (typeName t) = some t := by
  obtain ⟨signed, w⟩ := t
  have hall : ∀ x ∈ natChars w, x.isDigit = true := by
    have := natChars_all_digits w
    simpa [List.all_eq_true] using this
  cases signed
  · have hdata : (typeName (.bits false w)).toList = 'u' :: natChars w := by
      simp [typeName, String.toList, String.data_append, String.mk]
    unfold parseTypeName
    rw [hdata]
    simp [natChars_ne_nil w, natChars_all_digits w, charsToNat_natChars]
  · have hdata : (typeName (.bits true w)).toList = 's' :: natChars w := by
      simp [typeName, String.toList, String.data_append, String.mk]
    unfold parseTypeName
    rw [hdata]
    simp [natChars_ne_nil w, natChars_all_digits w, charsToNat_natChars]

theorem exprKinds_invocation_head (c : String) (ps args : List PExpr) :
    ∃ tl, exprKinds (.invocation c ps args) = TokKind.ident c :: tl := by
  cases ps with
  | nil =>
    cases args with
    | nil => exact ⟨[TokKind.oParen, TokKind.cParen], by simp [exprKinds]⟩
    | cons a as =>
      refine ⟨[TokKind.oParen] ++ (exprKinds a ++ exprKindsList as) ++
        [TokKind.cParen], ?_⟩
      simp [exprKinds]
  | cons p ps' =>
    cases args with
    | nil =>
      refine ⟨[TokKind.ltTok] ++ exprKinds p ++ exprKindsList ps' ++
        [TokKind.gtTok] ++ [TokKind.oParen] ++ [TokKind.cParen], ?_⟩
      simp [exprKinds]
    | cons a as =>
      refine ⟨[TokKind.ltTok] ++ exprKinds p ++ exprKindsList ps' ++
        [TokKind.gtTok] ++ [TokKind.oParen] ++
        (exprKinds a ++ exprKindsList as) ++ [TokKind.cParen], ?_⟩
      simp [exprKinds]

theorem exprKinds_head_term (e : PExpr) (h : wfTerm e = true) :
    ∃ s tl, exprKinds e = TokKind.ident s :: tl := by
  cases e with
  | nameRef s => exact ⟨s, [], rfl⟩
  | number t v => exact ⟨typeName t, _, rfl⟩
  | colonRef a b => exact ⟨a, _, rfl⟩
  | binop op l r => simp [wfTerm] at h
  | invocation c ps args =>
    obtain ⟨tl, htl⟩ := exprKinds_invocation_head c ps args
    exact ⟨c, tl, htl⟩
  | failBang lbl p => exact ⟨"fail", _, rfl⟩

theorem exprKinds_head_add (e : PExpr) (h : wfAdd e = true) :
    ∃ s tl, exprKinds e = TokKind.ident s :: tl := by
  cases e with
  | binop op l r =>
    cases op with
    | add =>
      simp only [wfAdd, Bool.and_eq_true] at h
      obtain ⟨s, tl, hs⟩ := exprKinds_head_term l h.1
      exact ⟨s, tl ++ [opKind .add] ++ exprKinds r, by simp [exprKinds, hs]⟩
    | beq => simp [wfAdd, wfTerm] at h
    | bne => simp [wfAdd, wfTerm] at h
    | blt => simp [wfAdd, wfTerm] at h
    | bgt => simp [wfAdd, wfTerm] at h
    | ble => simp [wfAdd, wfTerm] at h
    | bge => simp [wfAdd, wfTerm] at h
  | nameRef s => exact exprKinds_head_term _ (by simpa [wfAdd] using h)
  | number t v => exact exprKinds_head_term _ (by simpa [wfAdd] using h)
  | colonRef a b => exact exprKinds_head_term _ (by simpa [wfAdd] using h)
  | invocation c ps args => exact exprKinds_head_term _ (by simpa [wfAdd] using h)
  | failBang lbl p => exact exprKinds_head_term _ (by simpa [wfAdd] using h)

theorem exprKinds_head_expr (e : PExpr) (h : wfExpr e = true) :
    ∃ s tl, exprKinds e = TokKind.ident s :: tl := by
  cases e with
  | binop op l r =>
    cases op with
    | add => exact exprKinds_head_add _ (by simpa [wfExpr] using h)
    | blt => simp [wfExpr, wfAdd, wfTerm] at h
    | bgt => simp [wfExpr, wfAdd, wfTerm] at h
    | beq =>
      simp only [wfExpr, Bool.and_eq_true] at h
      obtain ⟨s, tl, hs⟩ := exprKinds_head_add l h.1
      exact ⟨s, tl ++ [opKind .beq] ++ exprKinds r, by simp [exprKinds, hs]⟩
    | bne =>
      simp only [wfExpr, Bool.and_eq_true] at h
      obtain ⟨s, tl, hs⟩ := exprKinds_head_add l h.1
      exact ⟨s, tl ++ [opKind .bne] ++ exprKinds r, by simp [exprKinds, hs]⟩
    | ble =>
      simp only [wfExpr, Bool.and_eq_true] at h
      obtain ⟨s, tl, hs⟩ := exprKinds_head_add l h.1
      exact ⟨s, tl ++ [opKind .ble] ++ exprKinds r, by simp [exprKinds, hs]⟩
    | bge =>
      simp only [wfExpr, Bool.and_eq_true] at h
      obtain ⟨s, tl, hs⟩ := exprKinds_head_add l h.1
      exact ⟨s, tl ++ [opKind .bge] ++ exprKinds r, by simp [exprKinds, hs]⟩
  | nameRef s => exact exprKinds_head_add _ (by simpa [wfExpr] using h)
  | number t v => exact exprKinds_head_add _ (by simpa [wfExpr] using h)
  | colonRef a b => exact exprKinds_head_add _ (by simpa [wfExpr] using h)
  | invocation c ps args => exact exprKinds_head_add _ (by simpa [wfExpr] using h)
  | failBang lbl p => exact exprKinds_head_add _ (by simpa [wfExpr] using h)

end Frontend

namespace Frontend

theorem sizeE_pos (e : PExpr) : 1 ≤ sizeE e := by
  cases e <;> simp [sizeE]

theorem sizeEL_pos (l : List PExpr) : 1 ≤ sizeEL l := by
  cases l <;> simp [sizeEL]

/-- Tokens a parametric-list element may be followed by. -/
def safeFollowElem (ts : List Token) : Bool :=
  match ts with
  | [] => true
  | t :: _ =>
    match t.kind with
    | .commaTok | .gtTok => true
    | _ => false

/-- Parsing the printed tokens of a well-formed parametric element yields
it back. -/
theorem parseParamElemK_print (p : PExpr) (hp : wfParamElem p = true)
    (tail : List Token) (htail : safeFollowElem tail = true) :
    parseParamElemK (List.map mkT (exprKinds p) ++ tail) = .ok (p, tail) := by
  cases p with
  | nameRef s =>
    cases tail with
    | nil => simp [exprKinds, parseParamElemK, mkT]
    | cons t2 r2 =>
      obtain ⟨k2, sp2⟩ := t2
      cases k2 <;> simp_all [safeFollowElem, exprKinds, parseParamElemK, mkT]
  | number t v =>
    simp [exprKinds, parseParamElemK, mkT, parseTypeName_typeName]
  | colonRef a b =>
    simp [exprKinds, parseParamElemK, mkT]
  | binop op l r => simp [wfParamElem] at hp
  | invocation c ps args => simp [wfParamElem] at hp
  | failBang lbl q => simp [wfParamElem] at hp

end Frontend

namespace Frontend

theorem parse_print_aux : ∀ N : Nat,
    (∀ e, sizeE e ≤ N → wfTerm e = true → ∀ fuel (rest : List Token),
      6 * sizeE e + 3 ≤ fuel → safeFollow rest = true →
      parseTermK fuel (List.map mkT (exprKinds e) ++ rest) = .ok (e, rest)) ∧
    (∀ e, sizeE e ≤ N → wfAdd e = true → ∀ fuel (rest : List Token),
      6 * sizeE e + 5 ≤ fuel → safeFollowAdd rest = true →
      parseAddK fuel (List.map mkT (exprKinds e) ++ rest) = .ok (e, rest)) ∧
    (∀ e, sizeE e ≤ N → wfExpr e = true → ∀ fuel (rest : List Token),
      6 * sizeE e + 6 ≤ fuel → safeFollowExpr rest = true →
      parseExprK fuel (List.map mkT (exprKinds e) ++ rest) = .ok (e, rest)) ∧
    (∀ p ps, sizeE p + sizeEL ps ≤ N → wfParamElem p = true →
      wfParamList ps = true → ∀ fuel (rest : List Token),
      6 * (sizeE p + sizeEL ps) + 1 ≤ fuel →
      parseParamElemsK fuel
        (List.map mkT (exprKinds p ++ exprKindsList ps ++ [TokKind.gtTok]) ++
          rest) = .ok (p :: ps, rest)) ∧
    (∀ a args, sizeE a + sizeEL args ≤ N → wfExpr a = true →
      wfArgList args = true → ∀ fuel (rest : List Token),
      6 * (sizeE a + sizeEL args) + 8 ≤ fuel →
      parseArgsRestK fuel
        (List.map mkT (exprKinds a ++ exprKindsList args) ++
          mkT TokKind.cParen :: rest) = .ok (a :: args, rest)) := by
  intro N
  induction N using Nat.strong_induction_on with
  | _ N IH =>
  have h1 : ∀ e, sizeE e ≤ N → wfTerm e = true → ∀ fuel (rest : List Token),
      6 * sizeE e + 3 ≤ fuel → safeFollow rest = true →
      parseTermK fuel (List.map mkT (exprKinds e) ++ rest) = .ok (e, rest) := by
    intro e hsz hwf fuel rest hfuel hfol
    obtain ⟨f, rfl⟩ : ∃ f, fuel = f + 1 :=
      ⟨fuel - 1, by have := sizeE_pos e; omega⟩
    cases e with
    | nameRef s =>
      clear IH
      cases rest with
      | nil => simp [exprKinds, parseTermK, mkT]
      | cons t2 r2 =>
        obtain ⟨k2, sp2⟩ := t2
        cases k2 <;> simp [safeFollow] at hfol <;>
          simp [exprKinds, parseTermK, mkT]
    | number t v =>
      simp [exprKinds, parseTermK, mkT, parseTypeName_typeName]
    | colonRef a b =>
      simp [exprKinds, parseTermK, mkT]
    | binop op l r => simp [wfTerm] at hwf
    | failBang lbl p =>
      have hp : wfExpr p = true := by simpa [wfTerm] using hwf
      have hszp : sizeE p < N := by simp [sizeE] at hsz; omega
      have hrec := (IH (sizeE p) hszp).2.2.1 p (Nat.le_refl _) hp f
        (mkT .cParen :: rest)
        (by simp [sizeE] at hfuel; omega) (by simp [safeFollowExpr, mkT])
      clear IH
      simp only [mkT, List.map_append, List.map_cons, List.map_nil,
        List.append_assoc, List.cons_append, List.nil_append, List.append_nil] at hrec ⊢
      simp [exprKinds, parseTermK, mkT, hrec, Bind.bind, Except.bind,
        List.map_append, List.map_cons, List.map_nil, List.append_assoc,
        List.cons_append, List.nil_append, List.append_nil]
    | invocation c ps args =>
      have hwf' : okName c = true ∧ wfParamList ps = true ∧
          wfArgList args = true := by
        simpa [wfTerm, Bool.and_eq_true, and_assoc] using hwf
      cases ps with
      | nil =>
        cases args with
        | nil =>
          obtain ⟨g, rfl⟩ : ∃ g, f = g + 1 :=
            ⟨f - 1, by simp [sizeE] at hfuel; omega⟩
          clear IH
          simp [exprKinds, parseTermK, parseArgsK, mkT, Bind.bind, Except.bind]
        | cons a args' =>
          have ha : wfExpr a = true ∧ wfArgList args' = true := by
            have := hwf'.2.2
            simpa [wfArgList, Bool.and_eq_true] using this
          have hm : sizeE a + sizeEL args' < N := by
            have := sizeEL_pos args'
            simp [sizeE, sizeEL] at hsz; omega
          obtain ⟨g, rfl⟩ : ∃ g, f = g + 1 :=
            ⟨f - 1, by simp [sizeE] at hfuel; omega⟩
          have h6 := (IH (sizeE a + sizeEL args') hm).2.2.2.2 a args'
            (Nat.le_refl _) ha.1 ha.2 g rest
            (by simp [sizeE, sizeEL] at hfuel; omega)
          obtain ⟨s0, tl0, h0⟩ := exprKinds_head_expr a ha.1
          clear IH
          simp only [h0, mkT, List.map_append, List.map_cons, List.map_nil,
            List.append_assoc, List.cons_append, List.nil_append, List.append_nil] at h6 ⊢
          simp [exprKinds, parseTermK, parseArgsK, mkT, h0, h6, Bind.bind,
            Except.bind, List.map_append, List.map_cons, List.map_nil,
            List.append_assoc, List.cons_append, List.nil_append, List.append_nil]
      | cons p ps' =>
        have hps : wfParamElem p = true ∧ wfParamList ps' = true := by
          have := hwf'.2.1
          simpa [wfParamList, Bool.and_eq_true] using this
        have hm5 : sizeE p + sizeEL ps' < N := by
          have := sizeEL_pos args
          simp [sizeE, sizeEL] at hsz; omega
        have h5 := (IH (sizeE p + sizeEL ps') hm5).2.2.2.1 p ps'
          (Nat.le_refl _) hps.1 hps.2 f
          (mkT .oParen ::
            (List.map mkT (match args with
              | [] => ([] : List TokKind)
              | a :: args' => exprKinds a ++ exprKindsList args') ++
              mkT TokKind.cParen :: rest))
          (by simp [sizeE, sizeEL] at hfuel; omega)
        cases args with
        | nil =>
          obtain ⟨g, rfl⟩ : ∃ g, f = g + 1 :=
            ⟨f - 1, by simp [sizeE] at hfuel; omega⟩
          clear IH
          simp only [mkT, List.map_append, List.map_cons, List.map_nil,
            List.append_assoc, List.cons_append, List.nil_append, List.append_nil] at h5 ⊢
          simp [exprKinds, parseTermK, parseArgsK, mkT, h5, Bind.bind,
            Except.bind, List.map_append, List.map_cons, List.map_nil,
            List.append_assoc, List.cons_append, List.nil_append, List.append_nil]
        | cons a args' =>
          have ha : wfExpr a = true ∧ wfArgList args' = true := by
            have := hwf'.2.2
            simpa [wfArgList, Bool.and_eq_true] using this
          have hm : sizeE a + sizeEL args' < N := by
            have := sizeEL_pos ps'
            have := sizeE_pos p
            simp [sizeE, sizeEL] at hsz; omega
          obtain ⟨g, rfl⟩ : ∃ g, f = g + 1 :=
            ⟨f - 1, by simp [sizeE] at hfuel; omega⟩
          have h6 := (IH (sizeE a + sizeEL args') hm).2.2.2.2 a args'
            (Nat.le_refl _) ha.1 ha.2 g rest
            (by simp [sizeE, sizeEL] at hfuel; omega)
          obtain ⟨s0, tl0, h0⟩ := exprKinds_head_expr a ha.1
          clear IH
          simp only [h0, mkT, List.map_append, List.map_cons, List.map_nil,
            List.append_assoc, List.cons_append, List.nil_append, List.append_nil] at h5 h6 ⊢
          simp [exprKinds, parseTermK, parseArgsK, mkT, h0, h5, h6, Bind.bind,
            Except.bind, List.map_append, List.map_cons, List.map_nil,
            List.append_assoc, List.cons_append, List.nil_append, List.append_nil]
  have h2 : ∀ e, sizeE e ≤ N → wfAdd e = true → ∀ fuel (rest : List Token),
      6 * sizeE e + 5 ≤ fuel → safeFollowAdd rest = true →
      parseAddK fuel (List.map mkT (exprKinds e) ++ rest) = .ok (e, rest) := by
    intro e hsz hwf fuel rest hfuel hfol
    have hfolS : safeFollow rest = true := safeFollowAdd_safeFollow rest hfol
    obtain ⟨f, rfl⟩ : ∃ f, fuel = f + 1 :=
      ⟨fuel - 1, by have := sizeE_pos e; omega⟩
    have termPath : ∀ e', sizeE e' ≤ N → wfTerm e' = true →
        6 * sizeE e' + 4 ≤ f →
        parseAddK (f + 1) (List.map mkT (exprKinds e') ++ rest) =
          .ok (e', rest) := by
      intro e' hsz' hwf' hf'
      have ht := h1 e' hsz' hwf' f rest (by omega) hfolS
      obtain ⟨g, rfl⟩ : ∃ g, f = g + 1 :=
        ⟨f - 1, by have := sizeE_pos e'; omega⟩
      cases rest with
      | nil =>
        simp only [List.append_nil] at ht
        simp [parseAddK, ht, Bind.bind, Except.bind, parseAddLoopK]
      | cons t2 r2 =>
        obtain ⟨k2, sp2⟩ := t2
        cases k2 <;> simp [safeFollowAdd] at hfol <;>
          simp [parseAddK, ht, Bind.bind, Except.bind, parseAddLoopK]
    cases e with
    | binop op l r =>
      cases op with
      | add =>
        have hlr : wfTerm l = true ∧ wfTerm r = true := by
          simpa [wfAdd, Bool.and_eq_true] using hwf
        have hsl : sizeE l ≤ N := by simp [sizeE] at hsz; omega
        have hsr : sizeE r ≤ N := by simp [sizeE] at hsz; omega
        have hL := h1 l hsl hlr.1 f
          (mkT (opKind .add) :: (List.map mkT (exprKinds r) ++ rest))
          (by simp [sizeE] at hfuel; omega) (by simp [safeFollow, mkT, opKind])
        obtain ⟨g, rfl⟩ : ∃ g, f = g + 1 :=
          ⟨f - 1, by simp [sizeE] at hfuel; omega⟩
        have hR := h1 r hsr hlr.2 g rest (by simp [sizeE] at hfuel; omega) hfolS
        obtain ⟨k, rfl⟩ : ∃ k, g = k + 1 :=
          ⟨g - 1, by simp [sizeE] at hfuel; omega⟩
        clear IH
        cases rest with
        | nil =>
          simp only [mkT, opKind, List.map_append, List.map_cons, List.map_nil,
            List.append_assoc, List.cons_append, List.nil_append, List.append_nil] at hL hR ⊢
          simp [exprKinds, opKind, parseAddK, parseAddLoopK, mkT, hL, hR,
            Bind.bind, Except.bind, List.map_append, List.map_cons,
            List.map_nil, List.append_assoc, List.cons_append, List.nil_append, List.append_nil]
        | cons t2 r2 =>
          obtain ⟨k2, sp2⟩ := t2
          cases k2 <;> simp [safeFollowAdd] at hfol <;>
            (simp only [mkT, opKind, List.map_append, List.map_cons,
              List.map_nil, List.append_assoc, List.cons_append,
              List.nil_append, List.append_nil] at hL hR ⊢
             simp [exprKinds, opKind, parseAddK, parseAddLoopK, mkT, hL, hR,
              Bind.bind, Except.bind, List.map_append, List.map_cons,
              List.map_nil, List.append_assoc, List.cons_append,
              List.nil_append, List.append_nil])
      | beq => simp [wfAdd, wfTerm] at hwf
      | bne => simp [wfAdd, wfTerm] at hwf
      | blt => simp [wfAdd, wfTerm] at hwf
      | bgt => simp [wfAdd, wfTerm] at hwf
      | ble => simp [wfAdd, wfTerm] at hwf
      | bge => simp [wfAdd, wfTerm] at hwf
    | nameRef s =>
      exact termPath _ hsz (by simpa [wfAdd] using hwf)
        (by simp [sizeE] at hfuel ⊢; omega)
    | number t v =>
      exact termPath _ hsz (by simpa [wfAdd] using hwf)
        (by simp [sizeE] at hfuel ⊢; omega)
    | colonRef a b =>
      exact termPath _ hsz (by simpa [wfAdd] using hwf)
        (by simp [sizeE] at hfuel ⊢; omega)
    | invocation c ps args =>
      exact termPath _ hsz (by simpa [wfAdd] using hwf)
        (by simp [sizeE] at hfuel ⊢; omega)
    | failBang lbl p =>
      exact termPath _ hsz (by simpa [wfAdd] using hwf)
        (by simp [sizeE] at hfuel ⊢; omega)
  have h3 : ∀ e, sizeE e ≤ N → wfExpr e = true → ∀ fuel (rest : List Token),
      6 * sizeE e + 6 ≤ fuel → safeFollowExpr rest = true →
      parseExprK fuel (List.map mkT (exprKinds e) ++ rest) = .ok (e, rest) := by
    intro e hsz hwf fuel rest hfuel hfol
    have hfolA : safeFollowAdd rest = true := safeFollowExpr_safeFollowAdd rest hfol
    obtain ⟨f, rfl⟩ : ∃ f, fuel = f + 1 :=
      ⟨fuel - 1, by have := sizeE_pos e; omega⟩
    have addPath : ∀ e', sizeE e' ≤ N → wfAdd e' = true →
        6 * sizeE e' + 5 ≤ f →
        parseExprK (f + 1) (List.map mkT (exprKinds e') ++ rest) =
          .ok (e', rest) := by
      intro e' hsz' hwf' hf'
      have ha := h2 e' hsz' hwf' f rest (by omega) hfolA
      cases rest with
      | nil =>
        simp only [List.append_nil] at ha
        simp [parseExprK, ha, Bind.bind, Except.bind]
      | cons t2 r2 =>
        have hcmp := safeFollowExpr_no_cmp t2 r2 hfol
        simp [parseExprK, ha, Bind.bind, Except.bind, hcmp]
    have cmpPath : ∀ op l r,
        (op = BinOp.beq ∨ op = BinOp.bne ∨ op = BinOp.ble ∨ op = BinOp.bge) →
        sizeE l + sizeE r + 1 ≤ N → wfAdd l = true → wfAdd r = true →
        6 * (sizeE l + sizeE r + 1) + 6 ≤ f + 1 →
        parseExprK (f + 1)
          (List.map mkT (exprKinds (PExpr.binop op l r)) ++ rest) =
          .ok (.binop op l r, rest) := by
      intro op l r hop hszlr hl hr hflr
      have hcmpok : cmpOpOf (opKind op) = some op := by
        rcases hop with rfl | rfl | rfl | rfl <;> rfl
      have hLfol : safeFollowAdd
          (mkT (opKind op) :: (List.map mkT (exprKinds r) ++ rest)) = true := by
        rcases hop with rfl | rfl | rfl | rfl <;> rfl
      have hL := h2 l (by omega) hl f
        (mkT (opKind op) :: (List.map mkT (exprKinds r) ++ rest))
        (by omega) hLfol
      have hR := h2 r (by omega) hr f rest (by omega) hfolA
      clear IH
      cases rest with
      | nil =>
        simp only [mkT, List.map_append, List.map_cons, List.map_nil,
          List.append_assoc, List.cons_append, List.nil_append, List.append_nil] at hL hR ⊢
        simp [exprKinds, parseExprK, mkT, hL, hR, hcmpok, Bind.bind,
          Except.bind, List.map_append, List.map_cons, List.map_nil,
          List.append_assoc, List.cons_append, List.nil_append, List.append_nil]
      | cons t2 r2 =>
        have hc2 := safeFollowExpr_no_cmp t2 r2 hfol
        simp only [mkT, List.map_append, List.map_cons, List.map_nil,
          List.append_assoc, List.cons_append, List.nil_append, List.append_nil] at hL hR ⊢
        simp [exprKinds, parseExprK, mkT, hL, hR, hcmpok, hc2, Bind.bind,
          Except.bind, List.map_append, List.map_cons, List.map_nil,
          List.append_assoc, List.cons_append, List.nil_append, List.append_nil]
    cases e with
    | binop op l r =>
      cases op with
      | add =>
        exact addPath _ hsz (by simpa [wfExpr] using hwf)
          (by simp [sizeE] at hfuel ⊢; omega)
      | blt => simp [wfExpr, wfAdd, wfTerm] at hwf
      | bgt => simp [wfExpr, wfAdd, wfTerm] at hwf
      | beq =>
        have hlr : wfAdd l = true ∧ wfAdd r = true := by
          simpa [wfExpr, Bool.and_eq_true] using hwf
        exact cmpPath .beq l r (Or.inl rfl) (by simp [sizeE] at hsz; omega)
          hlr.1 hlr.2 (by simp [sizeE] at hfuel; omega)
      | bne =>
        have hlr : wfAdd l = true ∧ wfAdd r = true := by
          simpa [wfExpr, Bool.and_eq_true] using hwf
        exact cmpPath .bne l r (Or.inr (Or.inl rfl))
          (by simp [sizeE] at hsz; omega) hlr.1 hlr.2
          (by simp [sizeE] at hfuel; omega)
      | ble =>
        have hlr : wfAdd l = true ∧ wfAdd r = true := by
          simpa [wfExpr, Bool.and_eq_true] using hwf
        exact cmpPath .ble l r (Or.inr (Or.inr (Or.inl rfl)))
          (by simp [sizeE] at hsz; omega) hlr.1 hlr.2
          (by simp [sizeE] at hfuel; omega)
      | bge =>
        have hlr : wfAdd l = true ∧ wfAdd r = true := by
          simpa [wfExpr, Bool.and_eq_true] using hwf
        exact cmpPath .bge l r (Or.inr (Or.inr (Or.inr rfl)))
          (by simp [sizeE] at hsz; omega) hlr.1 hlr.2
          (by simp [sizeE] at hfuel; omega)
    | nameRef s =>
      exact addPath _ hsz (by simpa [wfExpr] using hwf)
        (by simp [sizeE] at hfuel ⊢; omega)
    | number t v =>
      exact addPath _ hsz (by simpa [wfExpr] using hwf)
        (by simp [sizeE] at hfuel ⊢; omega)
    | colonRef a b =>
      exact addPath _ hsz (by simpa [wfExpr] using hwf)
        (by simp [sizeE] at hfuel ⊢; omega)
    | invocation c ps args =>
      exact addPath _ hsz (by simpa [wfExpr] using hwf)
        (by simp [sizeE] at hfuel ⊢; omega)
    | failBang lbl p =>
      exact addPath _ hsz (by simpa [wfExpr] using hwf)
        (by simp [sizeE] at hfuel ⊢; omega)
  have h5 : ∀ p ps, sizeE p + sizeEL ps ≤ N → wfParamElem p = true →
      wfParamList ps = true → ∀ fuel (rest : List Token),
      6 * (sizeE p + sizeEL ps) + 1 ≤ fuel →
      parseParamElemsK fuel
        (List.map mkT (exprKinds p ++ exprKindsList ps ++ [TokKind.gtTok]) ++
          rest) = .ok (p :: ps, rest) := by
    intro p ps hsz hp hps fuel rest hfuel
    obtain ⟨f, rfl⟩ : ∃ f, fuel = f + 1 := ⟨fuel - 1, by omega⟩
    cases ps with
    | nil =>
      have he := parseParamElemK_print p hp (mkT TokKind.gtTok :: rest)
        (by simp [safeFollowElem, mkT])
      clear IH
      simp only [mkT, exprKindsList, List.map_append, List.map_cons,
        List.map_nil, List.append_assoc, List.cons_append,
        List.nil_append, List.append_nil] at he ⊢
      simp [parseParamElemsK, he, Bind.bind, Except.bind, List.map_append,
        List.map_cons, List.map_nil, List.append_assoc, List.cons_append,
        List.nil_append, List.append_nil]
    | cons q qs =>
      have hq : wfParamElem q = true ∧ wfParamList qs = true := by
        simpa [wfParamList, Bool.and_eq_true] using hps
      have hm : sizeE q + sizeEL qs < N := by
        have := sizeE_pos p; simp [sizeEL] at hsz; omega
      have he := parseParamElemK_print p hp
        (mkT TokKind.commaTok ::
          (List.map mkT (exprKinds q ++ exprKindsList qs ++
            [TokKind.gtTok]) ++ rest))
        (by simp [safeFollowElem, mkT])
      have hrec := (IH _ hm).2.2.2.1 q qs (Nat.le_refl _) hq.1 hq.2 f rest
        (by simp [sizeEL] at hfuel; omega)
      clear IH
      simp only [mkT, exprKindsList, List.map_append, List.map_cons,
        List.map_nil, List.append_assoc, List.cons_append,
        List.nil_append, List.append_nil] at he hrec ⊢
      simp [parseParamElemsK, he, hrec, Bind.bind, Except.bind,
        List.map_append, List.map_cons, List.map_nil, List.append_assoc,
        List.cons_append, List.nil_append, List.append_nil]
  have h6 : ∀ a args, sizeE a + sizeEL args ≤ N → wfExpr a = true →
      wfArgList args = true → ∀ fuel (rest : List Token),
      6 * (sizeE a + sizeEL args) + 8 ≤ fuel →
      parseArgsRestK fuel
        (List.map mkT (exprKinds a ++ exprKindsList args) ++
          mkT TokKind.cParen :: rest) = .ok (a :: args, rest) := by
    intro a args hsz ha hargs fuel rest hfuel
    obtain ⟨f, rfl⟩ : ∃ f, fuel = f + 1 := ⟨fuel - 1, by omega⟩
    cases args with
    | nil =>
      have hA := h3 a (by have := sizeEL_pos ([] : List PExpr); omega) ha f
        (mkT TokKind.cParen :: rest)
        (by simp [sizeEL] at hfuel; omega) (by simp [safeFollowExpr, mkT])
      clear IH
      simp only [mkT, exprKindsList, List.map_append, List.map_cons,
        List.map_nil, List.append_assoc, List.cons_append,
        List.nil_append, List.append_nil] at hA ⊢
      simp [parseArgsRestK, hA, Bind.bind, Except.bind, List.map_append,
        List.map_cons, List.map_nil, List.append_assoc, List.cons_append,
        List.nil_append, List.append_nil]
    | cons b bs =>
      have hb : wfExpr b = true ∧ wfArgList bs = true := by
        simpa [wfArgList, Bool.and_eq_true] using hargs
      have hm : sizeE b + sizeEL bs < N := by
        have := sizeE_pos a; simp [sizeEL] at hsz; omega
      have hA := h3 a (by have := sizeEL_pos (b :: bs); omega) ha f
        (mkT TokKind.commaTok ::
          (List.map mkT (exprKinds b ++ exprKindsList bs) ++
            mkT TokKind.cParen :: rest))
        (by simp [sizeEL] at hfuel; omega) (by simp [safeFollowExpr, mkT])
      have hrec := (IH _ hm).2.2.2.2 b bs (Nat.le_refl _) hb.1 hb.2 f rest
        (by simp [sizeEL] at hfuel; omega)
      clear IH
      simp only [mkT, exprKindsList, List.map_append, List.map_cons,
        List.map_nil, List.append_assoc, List.cons_append,
        List.nil_append, List.append_nil] at hA hrec ⊢
      simp [parseArgsRestK, hA, hrec, Bind.bind, Except.bind,
        List.map_append, List.map_cons, List.map_nil, List.append_assoc,
        List.cons_append, List.nil_append, List.append_nil]
  exact ⟨h1, h2, h3, h5, h6⟩

end Frontend

namespace Frontend

def sizeMember : Member → Nat
  | .typeAlias _ _ => 1
  | .fnDef _ _ body => sizeE body + 2

def sizeMod : PModule → Nat
  | [] => 1
  | m :: rest => sizeMember m + sizeMod rest

theorem sizeMember_pos (m : Member) : 1 ≤ sizeMember m := by
  cases m <;> simp [sizeMember]

theorem sizeMod_pos (m : PModule) : 1 ≤ sizeMod m := by
  cases m with
  | nil => simp [sizeMod]
  | cons mem rest => have := sizeMember_pos mem; simp [sizeMod]; omega

theorem moduleKinds_cons (mem : Member) (rest : PModule) :
    moduleKinds (mem :: rest) = memberKinds mem ++ moduleKinds rest := by
  simp [moduleKinds]

theorem moduleKinds_nil : moduleKinds [] = [] := by simp [moduleKinds]

/-- Parsing the printed token stream of a well-formed module yields the
module back. -/
theorem parseMembersK_print : ∀ (m : PModule), wfModule m = true →
    ∀ fuel, 6 * sizeMod m ≤ fuel →
    parseMembersK fuel (List.map mkT (moduleKinds m)) = .ok m := by
  intro m
  induction m with
  | nil =>
    intro _ fuel hf
    obtain ⟨f, rfl⟩ : ∃ f, fuel = f + 1 :=
      ⟨fuel - 1, by simp [sizeMod] at hf; omega⟩
    simp [moduleKinds_nil, parseMembersK]
  | cons mem rest ih =>
    intro hwf fuel hf
    have hw : wfMember mem = true ∧ wfModule rest = true := by
      simpa [wfModule, Bool.and_eq_true] using hwf
    obtain ⟨f, rfl⟩ : ∃ f, fuel = f + 1 :=
      ⟨fuel - 1, by
        have := sizeMember_pos mem
        have := sizeMod_pos rest
        simp [sizeMod] at hf; omega⟩
    cases mem with
    | typeAlias n t =>
      have hrec := ih hw.2 f
        (by simp [sizeMod, sizeMember] at hf ⊢; omega)
      simp only [moduleKinds_cons, memberKinds, List.map_append,
        List.map_cons, List.map_nil, List.append_assoc, List.cons_append,
        List.nil_append, List.append_nil]
      simp [parseMembersK, mkT, parseTypeName_typeName, hrec, Except.map]
    | fnDef n ret body =>
      have hmem : okName n = true ∧ wfExpr body = true := by
        simpa [wfMember, Bool.and_eq_true] using hw.1
      have hbody := (parse_print_aux (sizeE body)).2.2.1 body (Nat.le_refl _)
        hmem.2 f (mkT .cBrace :: List.map mkT (moduleKinds rest))
        (by simp [sizeMod, sizeMember] at hf; omega)
        (by simp [safeFollowExpr, mkT])
      have hrec := ih hw.2 f
        (by simp [sizeMod, sizeMember] at hf ⊢; omega)
      simp only [moduleKinds_cons, memberKinds, mkT, List.map_append,
        List.map_cons, List.map_nil, List.append_assoc, List.cons_append,
        List.nil_append, List.append_nil] at hbody hrec ⊢
      simp [parseMembersK, mkT, parseTypeName_typeName, hbody, hrec,
        Except.map]

/-- Token-level module round-trip through `parseModuleK` for modules whose
fail labels are unique. -/
theorem parseModuleK_print (m : PModule) (hwf : wfModule m = true)
    (hdup : moduleHasDupLabel m = false) (fuel : Nat)
    (hf : 6 * sizeMod m ≤ fuel) :
    parseModuleK fuel (List.map mkT (moduleKinds m)) = .ok m := by
  simp [parseModuleK, parseMembersK_print m hwf fuel hf, hdup]

end Frontend

namespace Frontend

theorem chainErrorAux (a b : PExpr) (k1 k2 : TokKind) (sp1 sp2 : Span)
    (rest : List Token) (fuel : Nat) (ha : wfAdd a = true)
    (hb : wfAdd b = true)
    (hk1 : k1 = TokKind.eqEqTok ∨ k1 = TokKind.neTok ∨
      k1 = TokKind.leTok ∨ k1 = TokKind.geTok)
    (hk2 : k2 = TokKind.eqEqTok ∨ k2 = TokKind.neTok ∨
      k2 = TokKind.leTok ∨ k2 = TokKind.geTok)
    (hf : 6 * (sizeE a + sizeE b) + 12 ≤ fuel) :
    parseExprK fuel
      (List.map mkT (exprKinds a) ++ Token.mk k1 sp1 ::
        (List.map mkT (exprKinds b) ++ Token.mk k2 sp2 :: rest)) =
      .error ⟨sp2, chainMsg⟩ := by
  obtain ⟨f, rfl⟩ : ∃ f, fuel = f + 1 := ⟨fuel - 1, by omega⟩
  have hA := (parse_print_aux (sizeE a)).2.1 a (Nat.le_refl _) ha f
    (Token.mk k1 sp1 ::
      (List.map mkT (exprKinds b) ++ Token.mk k2 sp2 :: rest))
    (by have := sizeE_pos b; omega)
    (by rcases hk1 with rfl | rfl | rfl | rfl <;> rfl)
  have hB := (parse_print_aux (sizeE b)).2.1 b (Nat.le_refl _) hb f
    (Token.mk k2 sp2 :: rest)
    (by have := sizeE_pos a; omega)
    (by rcases hk2 with rfl | rfl | rfl | rfl <;> rfl)
  have hc1 : ∃ op1, cmpOpOf k1 = some op1 := by
    rcases hk1 with rfl | rfl | rfl | rfl <;> exact ⟨_, rfl⟩
  obtain ⟨op1, hc1⟩ := hc1
  have hc2 : ∃ op2, cmpOpOf k2 = some op2 := by
    rcases hk2 with rfl | rfl | rfl | rfl <;> exact ⟨_, rfl⟩
  obtain ⟨op2, hc2⟩ := hc2
  simp [parseExprK, hA, hB, hc1, hc2, Bind.bind, Except.bind]

/-- C3 (counterexample): `x < y > z` chains comparison operators, yet the
parser does not produce the comparison-chaining error — after `y` parses as
a parametric list element, the parser commits to a parametric invocation
and fails with "Expected a '(' after parametrics for function invocation."
at the span of `z` (pinned by `ChainedLtGtComparisonError`). -/
theorem chained_ltgt_not_chain_error :
    parseExprStr "x < y > z" = .error ⟨⟨0, 8, 9⟩, parenMsg⟩ ∧
    parenMsg ≠ chainMsg :=
  ⟨rfl, by decide⟩

/-- C3 (amended): chaining comparison operators among `==`, `!=`, `<=`,
`>=` after a complete comparison fails with "comparison operators cannot
be chained" at exactly the second operator's span; concretely,
`x == y == z` fails at the second `==` (cols 7-9) and `x < y < z` fails at
the second `<` (col 6) — but not `x < y > z`, which commits to a
parametric invocation instead. -/
theorem chained_comparison_error (a b : PExpr) (k1 k2 : TokKind)
    (sp1 sp2 : Span) (rest : List Token) (fuel : Nat) (ha : wfAdd a = true)
    (hb : wfAdd b = true)
    (hk1 : k1 = TokKind.eqEqTok ∨ k1 = TokKind.neTok ∨
      k1 = TokKind.leTok ∨ k1 = TokKind.geTok)
    (hk2 : k2 = TokKind.eqEqTok ∨ k2 = TokKind.neTok ∨
      k2 = TokKind.leTok ∨ k2 = TokKind.geTok)
    (hf : 6 * (sizeE a + sizeE b) + 12 ≤ fuel) :
    parseExprK fuel
      (List.map mkT (exprKinds a) ++ Token.mk k1 sp1 ::
        (List.map mkT (exprKinds b) ++ Token.mk k2 sp2 :: rest)) =
      .error ⟨sp2, chainMsg⟩ ∧
    parseExprStr "x == y == z" = .error ⟨⟨0, 7, 9⟩, chainMsg⟩ ∧
    parseExprStr "x < y < z" = .error ⟨⟨0, 6, 7⟩, chainMsg⟩ :=
  ⟨chainErrorAux a b k1 k2 sp1 sp2 rest fuel ha hb hk1 hk2 hf, rfl, rfl⟩

theorem chained_comparison_error_witness :
    parseExprK 50
      (List.map mkT (exprKinds (.nameRef "x")) ++ Token.mk .eqEqTok ⟨0, 2, 4⟩ ::
        (List.map mkT (exprKinds (.nameRef "y")) ++
          Token.mk .leTok ⟨0, 7, 9⟩ :: [])) =
      .error ⟨⟨0, 7, 9⟩, chainMsg⟩ ∧
    parseExprStr "x == y == z" = .error ⟨⟨0, 7, 9⟩, chainMsg⟩ ∧
    parseExprStr "x < y < z" = .error ⟨⟨0, 6, 7⟩, chainMsg⟩ :=
  chained_comparison_error (.nameRef "x") (.nameRef "y") .eqEqTok .leTok
    ⟨0, 2, 4⟩ ⟨0, 7, 9⟩ [] 50 (by simp [wfAdd, wfTerm, okName])
    (by simp [wfAdd, wfTerm, okName]) (Or.inl rfl)
    (Or.inr (Or.inr (Or.inl rfl))) (by norm_num [sizeE])

/-- C2: round-trip.  Token-level: for every well-formed module (with unique
fail labels), parsing the printed token stream yields the module back.
String-level, byte for byte: parsing `"type MyType = u32;"` and re-printing
yields the identical string, and the parametric invocations `f<u32:2>()`
and `f<BuiltinEnum::VALUE>()` round-trip exactly. -/
theorem module_print_parse_roundtrip (m : PModule) (fuel : Nat)
    (hwf : wfModule m = true) (hdup : moduleHasDupLabel m = false)
    (hf : 6 * sizeMod m ≤ fuel) :
    parseModuleK fuel (List.map mkT (moduleKinds m)) = .ok m ∧
    parseModuleStr "type MyType = u32;" =
      .ok [.typeAlias "MyType" (.bits false 32)] ∧
    printModule [.typeAlias "MyType" (.bits false 32)] = "type MyType = u32;" ∧
    parseExprStr "f<u32:2>()" =
      .ok (.invocation "f" [.number (.bits false 32) 2] [], []) ∧
    printExpr (.invocation "f" [.number (.bits false 32) 2] []) =
      "f<u32:2>()" ∧
    parseExprStr "f<BuiltinEnum::VALUE>()" =
      .ok (.invocation "f" [.colonRef "BuiltinEnum" "VALUE"] [], []) ∧
    printExpr (.invocation "f" [.colonRef "BuiltinEnum" "VALUE"] []) =
      "f<BuiltinEnum::VALUE>()" :=
  ⟨parseModuleK_print m hwf hdup fuel hf, rfl, rfl, rfl, rfl, rfl, rfl⟩

theorem module_print_parse_roundtrip_witness :
    parseModuleK 100 (List.map mkT (moduleKinds
      [.typeAlias "MyType" (.bits false 32),
       .fnDef "main" (.bits false 32) (.binop .beq
         (.invocation "f" [.number (.bits false 32) 2] [.nameRef "x"])
         (.failBang "one" (.number (.bits true 8) 3)))])) =
      .ok [.typeAlias "MyType" (.bits false 32),
       .fnDef "main" (.bits false 32) (.binop .beq
         (.invocation "f" [.number (.bits false 32) 2] [.nameRef "x"])
         (.failBang "one" (.number (.bits true 8) 3)))] ∧
    parseModuleStr "type MyType = u32;" =
      .ok [.typeAlias "MyType" (.bits false 32)] ∧
    printModule [.typeAlias "MyType" (.bits false 32)] = "type MyType = u32;" ∧
    parseExprStr "f<u32:2>()" =
      .ok (.invocation "f" [.number (.bits false 32) 2] [], []) ∧
    printExpr (.invocation "f" [.number (.bits false 32) 2] []) =
      "f<u32:2>()" ∧
    parseExprStr "f<BuiltinEnum::VALUE>()" =
      .ok (.invocation "f" [.colonRef "BuiltinEnum" "VALUE"] [], []) ∧
    printExpr (.invocation "f" [.colonRef "BuiltinEnum" "VALUE"] []) =
      "f<BuiltinEnum::VALUE>()" :=
  module_print_parse_roundtrip
    [.typeAlias "MyType" (.bits false 32),
     .fnDef "main" (.bits false 32) (.binop .beq
       (.invocation "f" [.number (.bits false 32) 2] [.nameRef "x"])
       (.failBang "one" (.number (.bits true 8) 3)))]
    100
    (by simp [wfModule, wfMember, wfExpr, wfAdd, wfTerm, wfParamList,
      wfParamElem, wfArgList, okName])
    (by simp [moduleHasDupLabel, failLabels, failLabelsList, hasDup])
    (by norm_num [sizeMod, sizeMember, sizeE, sizeEL])

/-- C8: two `fail!` invocations with the same label inside one function
body make module parsing fail with "A fail label must be unique"; the
check is inside `parseModuleK` itself, i.e. at parse time.  Concretely,
the `DetectsDuplicateFailLabels` program fails at string level with that
message. -/
theorem duplicate_fail_label_parse_error (m : PModule) (fuel : Nat)
    (hwf : wfModule m = true) (hdup : moduleHasDupLabel m = true)
    (hf : 6 * sizeMod m ≤ fuel) :
    parseModuleK fuel (List.map mkT (moduleKinds m)) =
      .error ⟨dummySpan, dupLabelMsg⟩ ∧
    parseModuleStr
      "fn main() -> u32 \x7b\n    fail!(\"x_is_7\", u32:0) + fail!(\"x_is_7\", u32:1)\n\x7d" =
      .error dupLabelMsg := by
  constructor
  · simp [parseModuleK, parseMembersK_print m hwf fuel hf, hdup]
  · rfl

theorem duplicate_fail_label_parse_error_witness :
    parseModuleK 100 (List.map mkT (moduleKinds
      [.fnDef "main" (.bits false 32) (.binop .add
        (.failBang "x_is_7" (.number (.bits false 32) 0))
        (.failBang "x_is_7" (.number (.bits false 32) 1)))])) =
      .error ⟨dummySpan, dupLabelMsg⟩ ∧
    parseModuleStr
      "fn main() -> u32 \x7b\n    fail!(\"x_is_7\", u32:0) + fail!(\"x_is_7\", u32:1)\n\x7d" =
      .error dupLabelMsg :=
  duplicate_fail_label_parse_error
    [.fnDef "main" (.bits false 32) (.binop .add
      (.failBang "x_is_7" (.number (.bits false 32) 0))
      (.failBang "x_is_7" (.number (.bits false 32) 1)))]
    100
    (by simp [wfModule, wfMember, wfExpr, wfAdd, wfTerm, wfParamList,
      wfParamElem, wfArgList, okName])
    (by simp [moduleHasDupLabel, failLabels, failLabelsList, hasDup])
    (by norm_num [sizeMod, sizeMember, sizeE, sizeEL])

end Frontend

namespace Frontend

/-- The generic unresolved-name diagnostic (pinned by the parser tests). -/
def cannotFindMsg (n : String) : String :=
  "Cannot find a definition for name: \"" ++ n ++ "\""

/-- The dedicated diagnostic for a proc member referenced from a proc
config function (pinned by `ProcConfigCantSeeMembers`). -/
def procMemberMsg (n : String) : String :=
  cannotFindMsg n ++ "; \"" ++ n ++
    "\" is a proc member, but those cannot be referenced from within a proc config function."

/-- Modelled from the spec: name resolution inside a proc `config`
function.  The config's own parameter bindings are in scope; the proc's
members are not — a name that matches a member produces the dedicated
diagnostic naming the member and explaining the restriction, any other
unknown name produces the generic diagnostic. -/
def resolveNameInConfig (bindings members : List String) (n : String) :
    Except String Unit :=
  if bindings.contains n then .ok ()
  else if members.contains n then .error (procMemberMsg n)
  else .error (cannotFindMsg n)

/-- Modelled from the spec: name resolution inside a proc `next` function,
where proc members are in scope alongside ordinary bindings. -/
def resolveNameInNext (bindings members : List String) (n : String) :
    Except String Unit :=
  if bindings.contains n || members.contains n then .ok ()
  else .error (cannotFindMsg n)

/-- C7: a proc member referenced from within that proc's config function
never resolves: it fails with the dedicated diagnostic that names the
member and explains the restriction (while the same name resolves fine
from `next`, where members are in scope); concretely, member `x12`
referenced from a config with parameter `x27` yields exactly the message
of `ProcConfigCantSeeMembers`. -/
theorem proc_config_cannot_see_members (bs ms : List String) (n : String)
    (hm : ms.contains n = true) (hb : bs.contains n = false) :
    resolveNameInConfig bs ms n = .error (procMemberMsg n) ∧
    resolveNameInNext bs ms n = .ok () ∧
    resolveNameInConfig ["x27"] ["x12"] "x12" = .error
      "Cannot find a definition for name: \"x12\"; \"x12\" is a proc member, but those cannot be referenced from within a proc config function." := by
  have hm' : n ∈ ms := by simpa using hm
  have hb' : n ∉ bs := by simpa using hb
  refine ⟨?_, ?_, rfl⟩
  · simp [resolveNameInConfig, hb', hm']
  · simp [resolveNameInNext, hm']

theorem proc_config_cannot_see_members_witness :
    resolveNameInConfig ["x27"] ["x12"] "x12" =
      .error (procMemberMsg "x12") ∧
    resolveNameInNext ["x27"] ["x12"] "x12" = .ok () ∧
    resolveNameInConfig ["x27"] ["x12"] "x12" = .error
      "Cannot find a definition for name: \"x12\"; \"x12\" is a proc member, but those cannot be referenced from within a proc config function." :=
  proc_config_cannot_see_members ["x27"] ["x12"] "x12" (by decide) (by decide)

end Frontend
